import Mathlib

/-!
# Verification of the stegafy container codec

A shallow embedding of the container codec implemented in `src/App.tsx`
(functions `xorEncrypt`, `arrayBufferToBase64`, `base64ToArrayBuffer`,
`embedFiles`, `checkForHiddenData`, `extractFiles`, `reEmbedFiles`), together
with models of the web-platform primitives those functions call
(`TextEncoder`/`TextDecoder`, `btoa`/`atob`, `JSON.stringify`/`JSON.parse`),
and proofs of the testable properties of the specification.

Modelling conventions:
* JavaScript strings are `List Char` of Unicode scalar values (lone UTF-16
  surrogates are not representable; no theorem below depends on them).
* Byte buffers (`ArrayBuffer`/`Uint8Array`) are `List Nat`; where a property
  needs the bytes to actually be bytes, a `< 256` hypothesis is stated.
* JavaScript numbers appearing inside parsed JSON are modelled as exact
  `mantissa * 10^exponent` pairs; every value any theorem below evaluates is
  a small integer, where this model and the IEEE double agree exactly.
* 32-bit signed arithmetic (`<<`, `|`, `>>`, `&` in the trailer logic) is
  modelled explicitly with `% 2^32` and a signed reinterpretation.
-/

namespace Stegafy

/-- JavaScript strings, as lists of Unicode scalar values. -/
abbrev Str := List Char

/-- Fuel arithmetic used by the fuelled recursions below. -/
theorem fuelSucc (fuel : Nat) (hf : 0 < fuel) : ∃ f2, fuel = f2 + 1 :=
  ⟨fuel - 1, by omega⟩

/-! ## Byte-level primitives -/

/-- Indexing a `Uint8Array` with a JavaScript number: out-of-bounds or negative
indexes yield `undefined`, which the `<< / |` arithmetic in the source coerces
to `0` (`ToInt32 NaN = 0`), so the model reads `0` there. -/
def byteAt (l : List Nat) (i : Int) : Nat :=
  if 0 ≤ i then l.getD i.toNat 0 else 0

/-- Reinterpret `n mod 2^32` as a signed 32-bit value, as JavaScript's
bitwise operators do (`ToInt32`). -/
def toInt32 (n : Nat) : Int :=
  if n % 4294967296 < 2147483648 then ((n % 4294967296 : Nat) : Int)
  else ((n % 4294967296 : Nat) : Int) - 4294967296

/-- `MAGIC_BYTES = [0x53, 0x54, 0x45, 0x47]` ("STEG"). -/
def MAGIC_BYTES : List Nat := [0x53, 0x54, 0x45, 0x47]

/-- The four bytes `(n >> 24) & 0xff, (n >> 16) & 0xff, (n >> 8) & 0xff,
n & 0xff` that `embedFiles`/`reEmbedFiles` write in front of the magic tag.
JavaScript shifts pass through `ToInt32`, hence the `% 2^32`. -/
def sizeFieldBytes (n : Nat) : List Nat :=
  [n % 4294967296 / 16777216 % 256,
   n % 4294967296 / 65536 % 256,
   n % 4294967296 / 256 % 256,
   n % 256]

/-- The payload-size read shared verbatim by `checkForHiddenData`,
`extractFiles` and `reEmbedFiles`:
`(u[L-8] << 24) | (u[L-7] << 16) | (u[L-6] << 8) | u[L-5]`.
The shifted fields are disjoint, so the bitwise ors add; the result is the
**signed** 32-bit reinterpretation of that sum. -/
def readPayloadSize (u : List Nat) : Int :=
  toInt32 (byteAt u ((u.length : Int) - 8) * 16777216 +
           byteAt u ((u.length : Int) - 7) * 65536 +
           byteAt u ((u.length : Int) - 6) * 256 +
           byteAt u ((u.length : Int) - 5))

/-- The magic-tag comparison of the last four bytes performed by
`checkForHiddenData` and `extractFiles` (both run it only when `L ≥ 8`,
so every index is in bounds). -/
def magicOk (u : List Nat) : Bool :=
  (byteAt u ((u.length : Int) - 4) == 0x53) &&
  (byteAt u ((u.length : Int) - 3) == 0x54) &&
  (byteAt u ((u.length : Int) - 2) == 0x45) &&
  (byteAt u ((u.length : Int) - 1) == 0x47)

/-! ## TextEncoder (UTF-8 encode) -/

/-- UTF-8 encoding of one scalar value (`TextEncoder`). -/
def utf8EncodeChar (c : Char) : List Nat :=
  let v := c.toNat
  if v < 0x80 then [v]
  else if v < 0x800 then [0xC0 + v / 64, 0x80 + v % 64]
  else if v < 0x10000 then [0xE0 + v / 4096, 0x80 + v / 64 % 64, 0x80 + v % 64]
  else [0xF0 + v / 262144, 0x80 + v / 4096 % 64, 0x80 + v / 64 % 64, 0x80 + v % 64]

/-- `new TextEncoder().encode(s)`. -/
def utf8Encode (s : Str) : List Nat := (s.map utf8EncodeChar).flatten

/-! ## The password transform (`xorEncrypt`) -/

/-- The body of `xorEncrypt`'s loop: byte `i` of the output is
`data[i] ^ key[i % key.length]`, with `i` counting from the given offset. -/
def xorMask (key : List Nat) : Nat → List Nat → List Nat
  | _, [] => []
  | i, b :: rest => (b ^^^ key.getD (i % key.length) 0) :: xorMask key (i + 1) rest

/-- `xorEncrypt(data, password)`: a no-op for an absent/empty password,
otherwise a repeating-key XOR keyed by the UTF-8 bytes of the password. -/
def xorEncrypt (data : List Nat) (password : Str) : List Nat :=
  if password.isEmpty then data
  else xorMask (utf8Encode password) 0 data

theorem xorMask_xorMask (key : List Nat) :
    ∀ (i : Nat) (data : List Nat), xorMask key i (xorMask key i data) = data := by
  intro i data
  induction data generalizing i with
  | nil => rfl
  | cons b rest ih => simp [xorMask, Nat.xor_cancel_right, ih]

theorem xorMask_length (key : List Nat) :
    ∀ (i : Nat) (data : List Nat), (xorMask key i data).length = data.length := by
  intro i data
  induction data generalizing i with
  | nil => rfl
  | cons b rest ih => simp [xorMask, ih]

theorem xorEncrypt_xorEncrypt (data : List Nat) (password : Str) :
    xorEncrypt (xorEncrypt data password) password = data := by
  unfold xorEncrypt
  by_cases h : password.isEmpty <;> simp [h, xorMask_xorMask]

theorem xorEncrypt_nil (data : List Nat) : xorEncrypt data [] = data := rfl

theorem xorEncrypt_length (data : List Nat) (password : Str) :
    (xorEncrypt data password).length = data.length := by
  unfold xorEncrypt
  by_cases h : password.isEmpty <;> simp [h, xorMask_length]

/-! ## TextDecoder (UTF-8 decode, replacement mode)

`new TextDecoder().decode` (no `fatal` option) never throws: per the WHATWG
encoding standard it emits U+FFFD for each maximal invalid subpart and
resumes at the offending byte. The decoder is total. -/

/-- U+FFFD REPLACEMENT CHARACTER. -/
def replChar : Char := Char.ofNat 0xFFFD

/-- WHATWG UTF-8 decoder, replacement mode, fuelled (each step consumes at
least one byte, so `length + 1` fuel always suffices; the fuel only makes the
recursion structural so that the kernel can evaluate it). The boundary checks
on the first continuation byte (which exclude overlong forms, surrogates and
values above U+10FFFF) are written as implications from the lead byte,
equivalent to the standard's boundary table. -/
def utf8DecAux : Nat → List Nat → Str
  | 0, _ => []
  | fuel + 1, l =>
    match l with
    | [] => []
    | b :: r1 =>
      if b < 0x80 then Char.ofNat b :: utf8DecAux fuel r1
      else if 0xC2 ≤ b ∧ b ≤ 0xDF then
        match r1 with
        | [] => [replChar]
        | b1 :: r2 =>
          if 0x80 ≤ b1 ∧ b1 ≤ 0xBF then
            Char.ofNat ((b - 0xC0) * 64 + (b1 - 0x80)) :: utf8DecAux fuel r2
          else replChar :: utf8DecAux fuel r1
      else if 0xE0 ≤ b ∧ b ≤ 0xEF then
        match r1 with
        | [] => [replChar]
        | b1 :: r2 =>
          if (0x80 ≤ b1 ∧ b1 ≤ 0xBF) ∧ (b = 0xE0 → 0xA0 ≤ b1) ∧ (b = 0xED → b1 ≤ 0x9F) then
            match r2 with
            | [] => [replChar]
            | b2 :: r3 =>
              if 0x80 ≤ b2 ∧ b2 ≤ 0xBF then
                Char.ofNat ((b - 0xE0) * 4096 + (b1 - 0x80) * 64 + (b2 - 0x80))
                  :: utf8DecAux fuel r3
              else replChar :: utf8DecAux fuel r2
          else replChar :: utf8DecAux fuel r1
      else if 0xF0 ≤ b ∧ b ≤ 0xF4 then
        match r1 with
        | [] => [replChar]
        | b1 :: r2 =>
          if (0x80 ≤ b1 ∧ b1 ≤ 0xBF) ∧ (b = 0xF0 → 0x90 ≤ b1) ∧ (b = 0xF4 → b1 ≤ 0x8F) then
            match r2 with
            | [] => [replChar]
            | b2 :: r3 =>
              if 0x80 ≤ b2 ∧ b2 ≤ 0xBF then
                match r3 with
                | [] => [replChar]
                | b3 :: r4 =>
                  if 0x80 ≤ b3 ∧ b3 ≤ 0xBF then
                    Char.ofNat ((b - 0xF0) * 262144 + (b1 - 0x80) * 4096 +
                      (b2 - 0x80) * 64 + (b3 - 0x80)) :: utf8DecAux fuel r4
                  else replChar :: utf8DecAux fuel r3
              else replChar :: utf8DecAux fuel r2
          else replChar :: utf8DecAux fuel r1
      else replChar :: utf8DecAux fuel r1

/-- `new TextDecoder().decode(bytes)`. -/
def utf8Dec (l : List Nat) : Str := utf8DecAux (l.length + 1) l

set_option maxRecDepth 8000 in
/-- Decoding inverts encoding one scalar at a time, using one unit of fuel. -/
theorem utf8DecAux_encodeChar (c : Char) (rest : List Nat) (fuel : Nat) :
    utf8DecAux (fuel + 1) (utf8EncodeChar c ++ rest) = c :: utf8DecAux fuel rest := by
  have hval : c.toNat < 0xD800 ∨ (0xDFFF < c.toNat ∧ c.toNat < 0x110000) := c.valid
  by_cases ha : c.toNat < 0x80
  · simp only [utf8EncodeChar, if_pos ha, List.cons_append, List.nil_append]
    unfold utf8DecAux
    try dsimp only
    rw [if_pos ha, Char.ofNat_toNat, ← utf8DecAux.eq_def]
  · by_cases hb : c.toNat < 0x800
    · simp only [utf8EncodeChar, if_neg ha, if_pos hb, List.cons_append, List.nil_append]
      unfold utf8DecAux
      try dsimp only
      rw [if_neg (show ¬(0xC0 + c.toNat / 64 < 0x80) by omega)]
      rw [if_pos (show 0xC2 ≤ 0xC0 + c.toNat / 64 ∧ 0xC0 + c.toNat / 64 ≤ 0xDF by omega)]
      try dsimp only
      rw [if_pos (show 0x80 ≤ 0x80 + c.toNat % 64 ∧ 0x80 + c.toNat % 64 ≤ 0xBF by omega)]
      have hA : (0xC0 + c.toNat / 64 - 0xC0) * 64 + (0x80 + c.toNat % 64 - 0x80) = c.toNat := by
        omega
      rw [hA, Char.ofNat_toNat, ← utf8DecAux.eq_def]
    · by_cases hc : c.toNat < 0x10000
      · have hsur : c.toNat < 0xD800 ∨ 0xDFFF < c.toNat := by omega
        simp only [utf8EncodeChar, if_neg ha, if_neg hb, if_pos hc, List.cons_append,
          List.nil_append]
        unfold utf8DecAux
        try dsimp only
        rw [if_neg (show ¬(0xE0 + c.toNat / 4096 < 0x80) by omega)]
        rw [if_neg (show ¬(0xC2 ≤ 0xE0 + c.toNat / 4096 ∧ 0xE0 + c.toNat / 4096 ≤ 0xDF) by omega)]
        rw [if_pos (show 0xE0 ≤ 0xE0 + c.toNat / 4096 ∧ 0xE0 + c.toNat / 4096 ≤ 0xEF by omega)]
        try dsimp only
        rw [if_pos (show (0x80 ≤ 0x80 + c.toNat / 64 % 64 ∧ 0x80 + c.toNat / 64 % 64 ≤ 0xBF) ∧
              (0xE0 + c.toNat / 4096 = 0xE0 → 0xA0 ≤ 0x80 + c.toNat / 64 % 64) ∧
              (0xE0 + c.toNat / 4096 = 0xED → 0x80 + c.toNat / 64 % 64 ≤ 0x9F)
            from ⟨by omega, fun h => by omega, fun h => by omega⟩)]
        try dsimp only
        rw [if_pos (show 0x80 ≤ 0x80 + c.toNat % 64 ∧ 0x80 + c.toNat % 64 ≤ 0xBF by omega)]
        have hA : (0xE0 + c.toNat / 4096 - 0xE0) * 4096 + (0x80 + c.toNat / 64 % 64 - 0x80) * 64
            + (0x80 + c.toNat % 64 - 0x80) = c.toNat := by omega
        rw [hA, Char.ofNat_toNat, ← utf8DecAux.eq_def]
      · have hd : c.toNat < 0x110000 := by omega
        simp only [utf8EncodeChar, if_neg ha, if_neg hb, if_neg hc, List.cons_append,
          List.nil_append]
        unfold utf8DecAux
        try dsimp only
        rw [if_neg (show ¬(0xF0 + c.toNat / 262144 < 0x80) by omega)]
        rw [if_neg (show ¬(0xC2 ≤ 0xF0 + c.toNat / 262144 ∧ 0xF0 + c.toNat / 262144 ≤ 0xDF)
          by omega)]
        rw [if_neg (show ¬(0xE0 ≤ 0xF0 + c.toNat / 262144 ∧ 0xF0 + c.toNat / 262144 ≤ 0xEF)
          by omega)]
        rw [if_pos (show 0xF0 ≤ 0xF0 + c.toNat / 262144 ∧ 0xF0 + c.toNat / 262144 ≤ 0xF4
          by omega)]
        try dsimp only
        rw [if_pos (show (0x80 ≤ 0x80 + c.toNat / 4096 % 64 ∧ 0x80 + c.toNat / 4096 % 64 ≤ 0xBF) ∧
              (0xF0 + c.toNat / 262144 = 0xF0 → 0x90 ≤ 0x80 + c.toNat / 4096 % 64) ∧
              (0xF0 + c.toNat / 262144 = 0xF4 → 0x80 + c.toNat / 4096 % 64 ≤ 0x8F)
            from ⟨by omega, fun h => by omega, fun h => by omega⟩)]
        try dsimp only
        rw [if_pos (show 0x80 ≤ 0x80 + c.toNat / 64 % 64 ∧ 0x80 + c.toNat / 64 % 64 ≤ 0xBF
          by omega)]
        try dsimp only
        rw [if_pos (show 0x80 ≤ 0x80 + c.toNat % 64 ∧ 0x80 + c.toNat % 64 ≤ 0xBF by omega)]
        have hA : (0xF0 + c.toNat / 262144 - 0xF0) * 262144
            + (0x80 + c.toNat / 4096 % 64 - 0x80) * 4096
            + (0x80 + c.toNat / 64 % 64 - 0x80) * 64 + (0x80 + c.toNat % 64 - 0x80) = c.toNat := by
          omega
        rw [hA, Char.ofNat_toNat, ← utf8DecAux.eq_def]

/-- With enough fuel, decoding inverts encoding for whole strings. -/
theorem utf8DecAux_utf8Encode (s : Str) :
    ∀ fuel : Nat, s.length ≤ fuel → utf8DecAux (fuel + 1) (utf8Encode s) = s := by
  induction s with
  | nil => intro fuel _; rfl
  | cons c cs ih =>
    intro fuel hf
    have hcons : utf8Encode (c :: cs) = utf8EncodeChar c ++ utf8Encode cs := by
      simp [utf8Encode]
    obtain ⟨f, rfl⟩ : ∃ f, fuel = f + 1 := by
      cases fuel
      · simp at hf
      · exact ⟨_, rfl⟩
    rw [hcons, utf8DecAux_encodeChar, ih f (by simpa using hf)]

/-- Every scalar encodes to at least one byte. -/
theorem utf8EncodeChar_length_pos (c : Char) : 1 ≤ (utf8EncodeChar c).length := by
  unfold utf8EncodeChar
  dsimp only
  split
  · simp
  · split
    · simp
    · split <;> simp

theorem length_le_utf8Encode_length (s : Str) : s.length ≤ (utf8Encode s).length := by
  induction s with
  | nil => simp [utf8Encode]
  | cons c cs ih =>
    have : utf8Encode (c :: cs) = utf8EncodeChar c ++ utf8Encode cs := by simp [utf8Encode]
    rw [this, List.length_append, List.length_cons]
    have := utf8EncodeChar_length_pos c
    omega

/-- Decoding inverts encoding for whole strings. -/
theorem utf8Dec_utf8Encode (s : Str) : utf8Dec (utf8Encode s) = s := by
  unfold utf8Dec
  exact utf8DecAux_utf8Encode s _ (length_le_utf8Encode_length s)

/-! ## Base64 (`btoa` / `atob`)

`arrayBufferToBase64` builds a binary string from the bytes (the `chunkSize`
loop only affects how the intermediate string is concatenated, not its value)
and calls `btoa`; `base64ToArrayBuffer` calls `atob` and reads the char codes
back. `atob` implements WHATWG forgiving-base64 decode and throws
`InvalidCharacterError` on bad input, modelled as `none`. -/

/-- The base64 alphabet. -/
def b64chars : Str :=
  "ABCDEFGHIJKLMNOPQRSTUVWXYZabcdefghijklmnopqrstuvwxyz0123456789+/".toList

/-- The 6-bit groups of a byte sequence, three bytes to four sextets,
with a final partial group for a trailing one or two bytes. -/
def b64sextets : List Nat → List Nat
  | [] => []
  | [x] => [x / 4, x % 4 * 16]
  | [x, y] => [x / 4, x % 4 * 16 + y / 16, y % 16 * 4]
  | x :: y :: z :: r =>
    x / 4 :: (x % 4 * 16 + y / 16) :: (y % 16 * 4 + z / 64) :: z % 64 :: b64sextets r

/-- The `=` padding `btoa` appends for a final partial group. -/
def b64pad (bs : List Nat) : Str :=
  match bs.length % 3 with
  | 1 => ['=', '=']
  | 2 => ['=']
  | _ => []

/-- `arrayBufferToBase64` (i.e. `btoa` of the bytes' binary string). -/
def arrayBufferToBase64 (bs : List Nat) : Str :=
  (b64sextets bs).map (fun v => b64chars.getD v 'A') ++ b64pad bs

/-- ASCII whitespace, which forgiving-base64 decode strips. -/
def isB64Ws (c : Char) : Bool :=
  c == '\x20' || c == '\x09' || c == '\x0a' || c == '\x0c' || c == '\x0d'

/-- Position of a character in a list, if present. -/
def posIn (c : Char) : Str → Option Nat
  | [] => none
  | a :: r => if a = c then some 0 else (posIn c r).map (· + 1)

/-- The sextet value of an alphabet character. -/
def sextetOf (c : Char) : Option Nat := posIn c b64chars

/-- All sextet values, failing on the first character outside the alphabet
(as `atob` throws there). -/
def sextetsOf : Str → Option (List Nat)
  | [] => some []
  | c :: r =>
    match sextetOf c, sextetsOf r with
    | some v, some vs => some (v :: vs)
    | _, _ => none

/-- Reassemble bytes from sextets; a trailing group of two or three sextets
contributes one or two bytes, discarding the unused low bits. -/
def decSextets : List Nat → List Nat
  | a :: b :: c :: d :: rest =>
    (a * 4 + b / 16) :: (b % 16 * 16 + c / 4) :: (c % 4 * 64 + d) :: decSextets rest
  | [a, b] => [a * 4 + b / 16]
  | [a, b, c] => [a * 4 + b / 16, b % 16 * 16 + c / 4]
  | _ => []

/-- Remove up to two trailing `=` characters. -/
def stripPad (s : Str) : Str :=
  match s.reverse with
  | '=' :: '=' :: r => r.reverse
  | '=' :: r => r.reverse
  | _ => s

/-- `base64ToArrayBuffer` (i.e. `atob`, WHATWG forgiving-base64 decode,
then reading the binary string's char codes): strip ASCII whitespace; if the
length is a multiple of four, drop up to two trailing `=`; fail if the length
is then `1 mod 4` or any character is outside the alphabet; else decode. -/
def base64ToArrayBuffer (s : Str) : Option (List Nat) :=
  let t := s.filter (fun c => !isB64Ws c)
  let t2 := if t.length % 4 == 0 then stripPad t else t
  if t2.length % 4 == 1 then none
  else (sextetsOf t2).map decSextets

theorem b64sextets_lt (bs : List Nat) (hb : ∀ b ∈ bs, b < 256) :
    ∀ v ∈ b64sextets bs, v < 64 := by
  match bs with
  | [] => simp [b64sextets]
  | [x] =>
    have := hb x (by simp)
    simp only [b64sextets, List.mem_cons, List.not_mem_nil, or_false]
    rintro v (rfl | rfl) <;> omega
  | [x, y] =>
    have := hb x (by simp)
    have := hb y (by simp)
    simp only [b64sextets, List.mem_cons, List.not_mem_nil, or_false]
    rintro v (rfl | rfl | rfl) <;> omega
  | x :: y :: z :: r =>
    have := hb x (by simp)
    have := hb y (by simp)
    have := hb z (by simp)
    have ih := b64sextets_lt r (fun b h => hb b (by simp [h]))
    simp only [b64sextets, List.mem_cons]
    rintro v (rfl | rfl | rfl | rfl | hm)
    · omega
    · omega
    · omega
    · omega
    · exact ih v hm

theorem sextetOf_b64char : ∀ v : Nat, v < 64 → sextetOf (b64chars.getD v 'A') = some v := by
  decide

theorem b64char_not_ws (v : Nat) : isB64Ws (b64chars.getD v 'A') = false := by
  by_cases h : v < b64chars.length
  · have hm : b64chars.getD v 'A' ∈ b64chars := by
      rw [List.getD_eq_getElem _ _ h]
      exact List.getElem_mem h
    revert hm
    have : ∀ c ∈ b64chars, isB64Ws c = false := by decide
    exact this _
  · rw [List.getD_eq_default _ _ (by omega)]
    decide

theorem b64char_ne_eq (v : Nat) : b64chars.getD v 'A' ≠ '=' := by
  by_cases h : v < b64chars.length
  · have hm : b64chars.getD v 'A' ∈ b64chars := by
      rw [List.getD_eq_getElem _ _ h]
      exact List.getElem_mem h
    revert hm
    have : ∀ c ∈ b64chars, c ≠ '=' := by decide
    exact this _
  · rw [List.getD_eq_default _ _ (by omega)]
    decide

theorem sextetsOf_map (vs : List Nat) (h : ∀ v ∈ vs, v < 64) :
    sextetsOf (vs.map (fun v => b64chars.getD v 'A')) = some vs := by
  induction vs with
  | nil => rfl
  | cons v r ih =>
    have hv := sextetOf_b64char v (h v (by simp))
    have hr := ih (fun w hw => h w (by simp [hw]))
    simp only [List.map_cons, sextetsOf]
    rw [hv, hr]

theorem decSextets_b64sextets (bs : List Nat) (hb : ∀ b ∈ bs, b < 256) :
    decSextets (b64sextets bs) = bs := by
  match bs with
  | [] => rfl
  | [x] =>
    have := hb x (by simp)
    simp only [b64sextets, decSextets]
    congr 1
    omega
  | [x, y] =>
    have := hb x (by simp)
    have := hb y (by simp)
    simp only [b64sextets, decSextets]
    congr 1
    · omega
    · congr 1
      omega
  | x :: y :: z :: r =>
    have := hb x (by simp)
    have := hb y (by simp)
    have := hb z (by simp)
    have ih := decSextets_b64sextets r (fun b h => hb b (by simp [h]))
    simp only [b64sextets, decSextets, ih]
    congr 1
    · omega
    · congr 1
      · omega
      · congr 1
        omega

theorem b64pad_cons3 (x y z : Nat) (r : List Nat) : b64pad (x :: y :: z :: r) = b64pad r := by
  unfold b64pad
  rw [show (x :: y :: z :: r).length % 3 = r.length % 3 by simp; omega]

theorem b64sextets_length_mod (bs : List Nat) :
    (b64sextets bs).length % 4 =
      (if bs.length % 3 = 0 then 0 else if bs.length % 3 = 1 then 2 else 3) := by
  match bs with
  | [] => rfl
  | [x] => rfl
  | [x, y] => rfl
  | x :: y :: z :: r =>
    have ih := b64sextets_length_mod r
    simp only [b64sextets, List.length_cons]
    simp only [show (r.length + 1 + 1 + 1) % 3 = r.length % 3 by omega]
    omega

theorem b64pad_all_eq (bs : List Nat) : ∀ c ∈ b64pad bs, c = '=' := by
  unfold b64pad
  split <;> simp_all

theorem stripPad_two (xs : Str) : stripPad (xs ++ ['=', '=']) = xs := by
  simp [stripPad, List.reverse_append]

theorem stripPad_one (xs : Str) (a : Char) (ha : a ≠ '=') :
    stripPad (xs ++ [a] ++ ['=']) = xs ++ [a] := by
  unfold stripPad
  rw [show (xs ++ [a] ++ ['=']).reverse = '=' :: a :: xs.reverse by simp]
  split
  · rename_i r heq
    simp only [List.cons.injEq] at heq
    exact absurd heq.2.1 ha
  · rename_i r heq
    simp only [List.cons.injEq] at heq
    rw [← heq.2]
    simp
  · rename_i hmatch
    exact absurd rfl (hmatch (a :: xs.reverse))

theorem stripPad_none (xs : Str) (h : ∀ c ∈ xs, c ≠ '=') : stripPad xs = xs := by
  rcases List.eq_nil_or_concat xs with rfl | ⟨ys, a, rfl⟩
  · rfl
  · have ha : a ≠ '=' := h a (by simp [List.concat_eq_append])
    unfold stripPad
    rw [List.concat_eq_append, show (ys ++ [a]).reverse = a :: ys.reverse by simp]
    split
    · rename_i r heq
      simp only [List.cons.injEq] at heq
      exact absurd heq.1 ha
    · rename_i r heq
      simp only [List.cons.injEq] at heq
      exact absurd heq.1 ha
    · rfl

/-- `base64ToArrayBuffer` inverts `arrayBufferToBase64` on byte sequences. -/
theorem base64_roundtrip (bs : List Nat) (hb : ∀ b ∈ bs, b < 256) :
    base64ToArrayBuffer (arrayBufferToBase64 bs) = some bs := by
  have hlt := b64sextets_lt bs hb
  set sx := b64sextets bs with hsx
  set mp := sx.map (fun v => b64chars.getD v 'A') with hmp
  have hmp_not_ws : ∀ c ∈ mp, isB64Ws c = false := by
    intro c hc
    rw [hmp] at hc
    obtain ⟨v, _, rfl⟩ := List.mem_map.mp hc
    exact b64char_not_ws v
  have hmp_ne_eq : ∀ c ∈ mp, c ≠ '=' := by
    intro c hc
    rw [hmp] at hc
    obtain ⟨v, _, rfl⟩ := List.mem_map.mp hc
    exact b64char_ne_eq v
  have hfilter : (mp ++ b64pad bs).filter (fun c => !isB64Ws c) = mp ++ b64pad bs := by
    rw [List.filter_eq_self]
    intro c hc
    rcases List.mem_append.mp hc with hm | hp
    · simp [hmp_not_ws c hm]
    · rw [b64pad_all_eq bs c hp]
      decide
  have hmod := b64sextets_length_mod bs
  rw [← hsx] at hmod
  have hmplen : mp.length = sx.length := by simp [hmp]
  unfold base64ToArrayBuffer arrayBufferToBase64
  rw [← hsx, ← hmp, hfilter]
  dsimp only
  have h3 : bs.length % 3 = 0 ∨ bs.length % 3 = 1 ∨ bs.length % 3 = 2 := by omega
  have hmod4 : mp.length % 4 = 0 ∨ mp.length % 4 = 2 ∨ mp.length % 4 = 3 := by
    rcases h3 with h3 | h3 | h3 <;> rw [h3] at hmod <;> simp at hmod <;> omega
  have hstrip : (if (mp ++ b64pad bs).length % 4 == 0 then stripPad (mp ++ b64pad bs)
      else mp ++ b64pad bs) = mp := by
    rcases h3 with h3 | h3 | h3 <;> rw [h3] at hmod <;> simp at hmod
    · have hpad : b64pad bs = [] := by unfold b64pad; rw [h3]
      rw [hpad, List.append_nil]
      rw [if_pos (by simp only [beq_iff_eq]; omega)]
      exact stripPad_none mp hmp_ne_eq
    · have hpad : b64pad bs = ['=', '='] := by unfold b64pad; rw [h3]
      rw [hpad, if_pos (by simp only [beq_iff_eq, List.length_append]; simp; omega)]
      exact stripPad_two mp
    · have hpad : b64pad bs = ['='] := by unfold b64pad; rw [h3]
      have hne : mp ≠ [] := by
        intro hnil
        rw [hnil] at hmplen
        simp at hmplen
        omega
      rcases List.eq_nil_or_concat mp with hnil | ⟨ys, a, hconcat⟩
      · exact absurd hnil hne
      · rw [List.concat_eq_append] at hconcat
        have ha : a ≠ '=' := hmp_ne_eq a (by rw [hconcat]; simp)
        rw [hpad, if_pos (by simp only [beq_iff_eq, List.length_append]; simp; omega),
          hconcat, stripPad_one ys a ha]
  rw [hstrip]
  rw [if_neg (by simp only [beq_iff_eq]; omega)]
  rw [hmp, sextetsOf_map sx hlt]
  simp only [Option.map_some']
  rw [hsx, decSextets_b64sextets bs hb]

/-! ## JavaScript values and JSON

Parsed JSON values. A number is kept as an exact `mantissa * 10^exponent`
pair as the parser read it; every number any theorem below evaluates is a
small integer, on which this representation and the IEEE-754 double produced
by `JSON.parse` agree exactly. -/

/-- A JSON number: `mant * 10^exp`, exactly as parsed. -/
structure JsNum where
  mant : Int
  exp : Int
deriving DecidableEq

inductive JsValue where
  | null
  | bool (b : Bool)
  | num (n : JsNum)
  | str (s : Str)
  | arr (elems : List JsValue)
  | obj (fields : List (Str × JsValue))

mutual

/-- Boolean equality on values (used to build `DecidableEq`, which the
`deriving` handler cannot produce for this nested inductive). -/
def jsEqb : JsValue → JsValue → Bool
  | .null, .null => true
  | .bool a, .bool b => a == b
  | .num a, .num b => a == b
  | .str a, .str b => a == b
  | .arr a, .arr b => jsEqbArr a b
  | .obj a, .obj b => jsEqbObj a b
  | _, _ => false

def jsEqbArr : List JsValue → List JsValue → Bool
  | [], [] => true
  | a :: ar, b :: br => jsEqb a b && jsEqbArr ar br
  | _, _ => false

def jsEqbObj : List (Str × JsValue) → List (Str × JsValue) → Bool
  | [], [] => true
  | (k1, v1) :: ar, (k2, v2) :: br => k1 == k2 && jsEqb v1 v2 && jsEqbObj ar br
  | _, _ => false

end

mutual

theorem jsEqb_iff : ∀ a b : JsValue, jsEqb a b = true ↔ a = b
  | .null, b => by cases b <;> simp [jsEqb]
  | .bool x, b => by cases b <;> simp [jsEqb]
  | .num x, b => by cases b <;> simp [jsEqb]
  | .str x, b => by cases b <;> simp [jsEqb]
  | .arr xs, b => by
    cases b <;> simp only [jsEqb, Bool.false_eq_true, false_iff, ne_eq, reduceCtorEq,
      not_false_eq_true, JsValue.arr.injEq]
    exact jsEqbArr_iff xs _
  | .obj fs, b => by
    cases b <;> simp only [jsEqb, Bool.false_eq_true, false_iff, ne_eq, reduceCtorEq,
      not_false_eq_true, JsValue.obj.injEq]
    exact jsEqbObj_iff fs _

theorem jsEqbArr_iff : ∀ a b : List JsValue, jsEqbArr a b = true ↔ a = b
  | [], b => by cases b <;> simp [jsEqbArr]
  | x :: xr, b => by
    cases b with
    | nil => simp [jsEqbArr]
    | cons y yr =>
      simp only [jsEqbArr, Bool.and_eq_true, List.cons.injEq]
      rw [jsEqb_iff x y, jsEqbArr_iff xr yr]

theorem jsEqbObj_iff : ∀ a b : List (Str × JsValue), jsEqbObj a b = true ↔ a = b
  | [], b => by cases b <;> simp [jsEqbObj]
  | (k, v) :: xr, b => by
    cases b with
    | nil => simp [jsEqbObj]
    | cons p yr =>
      obtain ⟨k2, v2⟩ := p
      simp only [jsEqbObj, Bool.and_eq_true, List.cons.injEq, Prod.mk.injEq, beq_iff_eq]
      rw [jsEqb_iff v v2, jsEqbObj_iff xr yr, and_assoc]

end

instance : DecidableEq JsValue := fun a b => decidable_of_iff _ (jsEqb_iff a b)

/-- JavaScript truthiness (`!!v`) of a parsed JSON value. -/
def jsTruthy : JsValue → Bool
  | .null => false
  | .bool b => b
  | .num n => !(n.mant == 0)
  | .str s => !s.isEmpty
  | .arr _ => true
  | .obj _ => true

/-- Truthiness of a possibly-`undefined` value (`none` models `undefined`). -/
def truthyOpt : Option JsValue → Bool
  | none => false
  | some v => jsTruthy v

/-- Object field lookup. `JSON.parse` assigns duplicate keys in document
order, so the last occurrence wins. -/
def lookupField (fields : List (Str × JsValue)) (k : Str) : Option JsValue :=
  (fields.reverse.find? (fun p => p.1 == k)).map (·.2)

/-- JavaScript property access `v[k]` on a parsed JSON value: a `TypeError`
(modelled `.error ()`) on `null`; `undefined` (`none`) on other non-objects. -/
def jsGetField (v : JsValue) (k : Str) : Except Unit (Option JsValue) :=
  match v with
  | .null => .error ()
  | .obj fields => .ok (lookupField fields k)
  | _ => .ok none

/-! ### Number printing (`ToString` of a double)

Modelled exactly for the values reachable in this development: integers and
finite decimals in the fixed-notation range (ECMAScript switches to exponent
notation only for magnitudes `≥ 1e21` or `< 1e-6`, which no theorem below
evaluates). -/

/-- The decimal digit character. -/
def digChar (d : Nat) : Char := Char.ofNat (48 + d)

/-- The lowercase hexadecimal digit character. -/
def hexChar (d : Nat) : Char := if d < 10 then digChar d else Char.ofNat (87 + d)

/-- Most-significant-first decimal digits (fuelled so that the kernel can
evaluate it; `n + 1` fuel always suffices). -/
def natCharsAux : Nat → Nat → Str
  | 0, _ => []
  | fuel + 1, n => if n < 10 then [digChar n] else natCharsAux fuel (n / 10) ++ [digChar (n % 10)]

/-- Most-significant-first decimal digits of a natural number. -/
def natChars (n : Nat) : Str := natCharsAux (n + 1) n

/-- Left-pad with `'0'` to length `k`. -/
def padZeros (s : Str) (k : Nat) : Str := List.replicate (k - s.length) '0' ++ s

/-- Cancel factors of ten: divide `a` by ten while it is divisible and the
decimal shift `k` is positive (the shortest-print form of `a / 10^k`). -/
def dropTenFactors : Nat → Nat → Nat × Nat
  | a, 0 => (a, 0)
  | a, k + 1 => if a % 10 = 0 ∧ 0 < a then dropTenFactors (a / 10) k else (a, k + 1)

/-- `ToString` of the double denoted by a parsed number, on the
decimal/fixed-notation range. -/
def jsNumRender (n : JsNum) : Str :=
  if n.mant = 0 then ['0']
  else
    let sign : Str := if n.mant < 0 then ['-'] else []
    let a : Nat := n.mant.natAbs
    if 0 ≤ n.exp then sign ++ natChars (a * 10 ^ n.exp.toNat)
    else
      let p := dropTenFactors a (-n.exp).toNat
      if p.2 = 0 then sign ++ natChars p.1
      else sign ++ natChars (p.1 / 10 ^ p.2) ++ '.' :: padZeros (natChars (p.1 % 10 ^ p.2)) p.2

/-! ### `String(v)` (the DOMString coercion `atob` applies to its argument) -/

mutual

/-- `Array.prototype.join` with the default comma separator. -/
def joinElems : List JsValue → Str
  | [] => []
  | [x] => jsElemStr x
  | x :: rest => jsElemStr x ++ ',' :: joinElems rest

/-- One array element's contribution to `join`: `null`/`undefined` join as
the empty string, anything else by its `String(v)` coercion. -/
def jsElemStr : JsValue → Str
  | .null => []
  | .bool b => if b then "true".toList else "false".toList
  | .num n => jsNumRender n
  | .str s => s
  | .arr xs => joinElems xs
  | .obj _ => "[object Object]".toList

end

/-- JavaScript `String(v)` of a parsed JSON value (`Array.prototype.toString`
joins elements with commas; objects print `[object Object]`). -/
def jsToString : JsValue → Str
  | .null => "null".toList
  | .bool b => if b then "true".toList else "false".toList
  | .num n => jsNumRender n
  | .str s => s
  | .arr xs => joinElems xs
  | .obj _ => "[object Object]".toList

/-! ### `JSON.stringify` -/

/-- `QuoteJSONString` escaping of one character. -/
def quoteEsc (c : Char) : Str :=
  if c = '"' then ['\\', '"']
  else if c = '\\' then ['\\', '\\']
  else if c = '\x08' then ['\\', 'b']
  else if c = '\t' then ['\\', 't']
  else if c = '\n' then ['\\', 'n']
  else if c = '\x0c' then ['\\', 'f']
  else if c = '\r' then ['\\', 'r']
  else if c.toNat < 32 then '\\' :: 'u' :: '0' :: '0' :: [hexChar (c.toNat / 16), hexChar (c.toNat % 16)]
  else [c]

/-- A JSON string literal: quoted, escaped body. -/
def quoteStr (s : Str) : Str := '"' :: (s.map quoteEsc).flatten ++ ['"']

mutual

/-- `JSON.stringify` (no replacer/indentation, as the source calls it). -/
def jsStringify : JsValue → Str
  | .null => "null".toList
  | .bool b => if b then "true".toList else "false".toList
  | .num n => jsNumRender n
  | .str s => quoteStr s
  | .arr xs => '[' :: (joinStr xs ++ [']'])
  | .obj fs => '\x7b' :: (joinObj fs ++ ['\x7d'])

def joinStr : List JsValue → Str
  | [] => []
  | [x] => jsStringify x
  | x :: rest => jsStringify x ++ ',' :: joinStr rest

def joinObj : List (Str × JsValue) → Str
  | [] => []
  | [(k, v)] => quoteStr k ++ ':' :: jsStringify v
  | (k, v) :: rest => quoteStr k ++ ':' :: jsStringify v ++ ',' :: joinObj rest

end

/-! ### `JSON.parse`

A fuelled recursive-descent parser for the exact ECMAScript `JSON.parse`
grammar. One deliberate model restriction: a `\uXXXX` escape denoting a lone
UTF-16 surrogate makes the parse fail (a real engine produces a string with a
lone surrogate, which `List Char` cannot carry); surrogate escape *pairs* are
combined. No theorem below feeds lone-surrogate escapes to the parser. -/

/-- JSON whitespace. -/
def jsonWs (c : Char) : Bool := c == '\x20' || c == '\x09' || c == '\x0a' || c == '\x0d'

/-- Drop leading JSON whitespace. -/
def wsDrop : Str → Str
  | c :: r => if jsonWs c then wsDrop r else c :: r
  | [] => []

/-- Decimal digit test. -/
def isDig (c : Char) : Bool := 48 ≤ c.toNat && c.toNat ≤ 57

/-- Split off a leading run of decimal digits. -/
def digitSpan : Str → Str × Str
  | c :: r => if isDig c then ((digitSpan r).1.cons c, (digitSpan r).2) else ([], c :: r)
  | [] => ([], [])

/-- The numeric value of a digit run. -/
def digitsVal (ds : Str) : Nat := ds.foldl (fun a c => a * 10 + (c.toNat - 48)) 0

/-- Leading minus sign of a JSON number. -/
def numSign (s : Str) : Bool × Str :=
  match s with
  | c :: r => if c = '-' then (true, r) else (false, c :: r)
  | [] => (false, [])

/-- Integer part: `0`, or a nonzero digit followed by a digit run. -/
def numIntPart (s : Str) : Option (Nat × Str) :=
  match s with
  | c :: r =>
    if c = '0' then some (0, r)
    else if isDig c then some (digitsVal (digitSpan (c :: r)).1, (digitSpan (c :: r)).2)
    else none
  | [] => none

/-- Optional fraction: a point must be followed by at least one digit. -/
def numFracPart (s : Str) : Option (Str × Str) :=
  match s with
  | c :: r =>
    if c = '.' then (if (digitSpan r).1.isEmpty then none else some (digitSpan r))
    else some ([], c :: r)
  | [] => some ([], [])

/-- Optional exponent: `e`/`E`, optional sign, at least one digit. -/
def numExpPart (s : Str) : Option (Int × Str) :=
  match s with
  | c :: r =>
    if c = 'e' ∨ c = 'E' then
      let ep : Bool × Str :=
        match r with
        | c2 :: t => if c2 = '+' then (false, t)
                     else if c2 = '-' then (true, t)
                     else (false, c2 :: t)
        | [] => (false, [])
      if (digitSpan ep.2).1.isEmpty then none
      else some (if ep.1 then -(digitsVal (digitSpan ep.2).1 : Int)
                 else (digitsVal (digitSpan ep.2).1 : Int), (digitSpan ep.2).2)
    else some (0, c :: r)
  | [] => some (0, [])

/-- Parse a JSON number (strict grammar: `-? (0 | [1-9][0-9]*) (. [0-9]+)?
([eE] [+-]? [0-9]+)?`), returning its exact value. -/
def numParse (s : Str) : Option (JsNum × Str) :=
  match numIntPart (numSign s).2 with
  | none => none
  | some (i, s2) =>
    match numFracPart s2 with
    | none => none
    | some (fds, s3) =>
      match numExpPart s3 with
      | none => none
      | some (e, s4) =>
        let m : Nat := i * 10 ^ fds.length + digitsVal fds
        some (⟨if (numSign s).1 then -(m : Int) else (m : Int), e - (fds.length : Int)⟩, s4)

/-- Hexadecimal digit value. -/
def hexVal? (c : Char) : Option Nat :=
  if 48 ≤ c.toNat ∧ c.toNat ≤ 57 then some (c.toNat - 48)
  else if 97 ≤ c.toNat ∧ c.toNat ≤ 102 then some (c.toNat - 87)
  else if 65 ≤ c.toNat ∧ c.toNat ≤ 70 then some (c.toNat - 55)
  else none

/-- The value of four hexadecimal digit characters. -/
def hex4Val (a b c d : Char) : Option Nat :=
  match hexVal? a, hexVal? b, hexVal? c, hexVal? d with
  | some va, some vb, some vc, some vd => some (((va * 16 + vb) * 16 + vc) * 16 + vd)
  | _, _, _, _ => none

/-- Decode one escape sequence (the input begins after the backslash),
returning the denoted character and the remaining input. A `\uXXXX` escape
of a high surrogate must be followed by a low-surrogate escape, combined into
one scalar; a lone-surrogate escape fails (model restriction: a real engine
produces a lone UTF-16 surrogate, which `List Char` cannot carry; no theorem
below feeds one to the parser). -/
def escDecode (s : Str) : Option (Char × Str) :=
  match s with
  | [] => none
  | e :: r1 =>
    if e = '"' then some ('"', r1)
    else if e = '\\' then some ('\\', r1)
    else if e = '/' then some ('/', r1)
    else if e = 'b' then some ('\x08', r1)
    else if e = 'f' then some ('\x0c', r1)
    else if e = 'n' then some ('\n', r1)
    else if e = 'r' then some ('\r', r1)
    else if e = 't' then some ('\t', r1)
    else if e = 'u' then
      match r1 with
      | a :: b :: c :: d :: r2 =>
        match hex4Val a b c d with
        | some u =>
          if u < 0xD800 ∨ 0xDFFF < u then some (Char.ofNat u, r2)
          else if u ≤ 0xDBFF then
            match r2 with
            | e2 :: u2m :: a2 :: b2 :: c3 :: d2 :: r3 =>
              if e2 = '\\' ∧ u2m = 'u' then
                match hex4Val a2 b2 c3 d2 with
                | some u2 =>
                  if 0xDC00 ≤ u2 ∧ u2 ≤ 0xDFFF then
                    some (Char.ofNat (0x10000 + (u - 0xD800) * 1024 + (u2 - 0xDC00)), r3)
                  else none
                | none => none
              else none
            | _ => none
          else none
        | none => none
      | _ => none
    else none

/-- Parse a JSON string body after the opening quote (fuelled: each step
consumes at least one character, so `length + 1` fuel always suffices),
returning the decoded characters and the input after the closing quote. -/
def strBodyAux : Nat → Str → Option (Str × Str)
  | 0, _ => none
  | fuel + 1, s =>
    match s with
    | [] => none
    | c :: r =>
      if c = '"' then some ([], r)
      else if c = '\\' then
        match escDecode r with
        | some p => (strBodyAux fuel p.2).map (fun q => (p.1 :: q.1, q.2))
        | none => none
      else if c.toNat < 0x20 then none
      else (strBodyAux fuel r).map (fun p => (c :: p.1, p.2))

/-- Parse a JSON string body after the opening quote. -/
def strBody (s : Str) : Option (Str × Str) := strBodyAux (s.length + 1) s

mutual

/-- Parse one JSON value (leading whitespace allowed), structural on `fuel`. -/
def jsonVal (fuel : Nat) (s : Str) : Option (JsValue × Str) :=
  match fuel with
  | 0 => none
  | fuel + 1 =>
    match wsDrop s with
    | 'n' :: 'u' :: 'l' :: 'l' :: rA => some (.null, rA)
    | 'f' :: 'a' :: 'l' :: 's' :: 'e' :: rB => some (.bool false, rB)
    | 't' :: 'r' :: 'u' :: 'e' :: rC => some (.bool true, rC)
    | '"' :: r => (strBody r).map (fun p => (.str p.1, p.2))
    | '[' :: r =>
      match wsDrop r with
      | ']' :: t => some (.arr [], t)
      | r1 => (jsonElems fuel r1).map (fun p => (.arr p.1, p.2))
    | '\x7b' :: r =>
      match wsDrop r with
      | '\x7d' :: t => some (.obj [], t)
      | r1 => (jsonMembers fuel r1).map (fun p => (.obj p.1, p.2))
    | c :: r =>
      if c = '-' ∨ isDig c then (numParse (c :: r)).map (fun p => (.num p.1, p.2)) else none
    | [] => none

/-- Parse one-or-more comma-separated array elements up to the closing `]`. -/
def jsonElems (fuel : Nat) (s : Str) : Option (List JsValue × Str) :=
  match fuel with
  | 0 => none
  | fuel + 1 =>
    match jsonVal fuel s with
    | none => none
    | some (v, r) =>
      match wsDrop r with
      | ',' :: r2 => (jsonElems fuel r2).map (fun p => (v :: p.1, p.2))
      | ']' :: r2 => some ([v], r2)
      | _ => none

/-- Parse one-or-more members up to the closing `}`. -/
def jsonMembers (fuel : Nat) (s : Str) : Option (List (Str × JsValue) × Str) :=
  match fuel with
  | 0 => none
  | fuel + 1 =>
    match wsDrop s with
    | '"' :: r =>
      match strBody r with
      | none => none
      | some (k, r1) =>
        match wsDrop r1 with
        | ':' :: r2 =>
          match jsonVal fuel r2 with
          | none => none
          | some (v, r3) =>
            match wsDrop r3 with
            | ',' :: r4 => (jsonMembers fuel r4).map (fun p => ((k, v) :: p.1, p.2))
            | '\x7d' :: r4 => some ([(k, v)], r4)
            | _ => none
        | _ => none
    | _ => none

end

/-- `JSON.parse`: a complete document is one value with only whitespace
around it. The fuel `length + 1` suffices because every recursive step
consumes at least one character. -/
def jsonParse (s : Str) : Option JsValue :=
  match jsonVal (s.length + 1) s with
  | some (v, r) => if (wsDrop r).isEmpty then some v else none
  | none => none

/-! ## Decimal digits: rendering and parsing are inverse -/

theorem natCharsAux_fuel (n : Nat) : ∀ fuel, n < fuel → natCharsAux fuel n = natChars n := by
  induction n using Nat.strong_induction_on with
  | _ n ih =>
    intro fuel hf
    obtain ⟨f, rfl⟩ := fuelSucc fuel (by omega)
    unfold natChars
    by_cases h10 : n < 10
    · simp [natCharsAux, h10]
    · rw [show natCharsAux (f + 1) n = natCharsAux f (n / 10) ++ [digChar (n % 10)] by
        simp [natCharsAux, h10]]
      rw [show natCharsAux (n + 1) n = natCharsAux n (n / 10) ++ [digChar (n % 10)] by
        simp [natCharsAux, h10]]
      rw [ih (n / 10) (by omega) f (by omega), ih (n / 10) (by omega) n (by omega)]

theorem natChars_unfold (n : Nat) :
    natChars n = if n < 10 then [digChar n] else natChars (n / 10) ++ [digChar (n % 10)] := by
  by_cases h : n < 10
  · simp [natChars, natCharsAux, h]
  · simp only [natChars, if_neg h]
    rw [show natCharsAux (n + 1) n = natCharsAux n (n / 10) ++ [digChar (n % 10)] by
      simp [natCharsAux, h]]
    rw [natCharsAux_fuel (n / 10) n (by omega)]
    rfl

theorem digChar_spec : ∀ d, d < 10 → (digChar d).toNat = 48 + d ∧ isDig (digChar d) = true := by
  decide

theorem natChars_ne_nil (n : Nat) : natChars n ≠ [] := by
  rw [natChars_unfold]
  split <;> simp

theorem natChars_digits (n : Nat) : ∀ c ∈ natChars n, isDig c = true := by
  induction n using Nat.strong_induction_on with
  | _ n ih =>
    rw [natChars_unfold]
    intro c hc
    by_cases h : n < 10
    · rw [if_pos h] at hc
      simp only [List.mem_singleton] at hc
      subst hc
      exact (digChar_spec n h).2
    · rw [if_neg h] at hc
      rcases List.mem_append.mp hc with hm | hm
      · exact ih (n / 10) (by omega) c hm
      · simp only [List.mem_singleton] at hm
        subst hm
        exact (digChar_spec _ (Nat.mod_lt _ (by omega))).2

theorem natChars_head (n : Nat) (hn : n ≠ 0) :
    ∃ c t, natChars n = c :: t ∧ isDig c = true ∧ c ≠ '0' := by
  induction n using Nat.strong_induction_on with
  | _ n ih =>
    rw [natChars_unfold]
    by_cases h : n < 10
    · rw [if_pos h]
      refine ⟨digChar n, [], rfl, (digChar_spec n h).2, ?_⟩
      have : ∀ d, d < 10 → d ≠ 0 → digChar d ≠ '0' := by decide
      exact this n h hn
    · rw [if_neg h]
      have hdiv : n / 10 < n := by omega
      have hdz : n / 10 ≠ 0 := by omega
      obtain ⟨c, t, heq, hd, h0⟩ := ih (n / 10) hdiv hdz
      exact ⟨c, t ++ [digChar (n % 10)], by rw [heq]; simp, hd, h0⟩

theorem foldl_digits_natChars (n : Nat) :
    ∀ acc : Nat, (natChars n).foldl (fun a c => a * 10 + (c.toNat - 48)) acc
      = acc * 10 ^ (natChars n).length + n := by
  induction n using Nat.strong_induction_on with
  | _ n ih =>
    intro acc
    rw [natChars_unfold]
    by_cases h : n < 10
    · rw [if_pos h]
      simp only [List.foldl_cons, List.foldl_nil, List.length_singleton]
      rw [(digChar_spec n h).1]
      omega
    · rw [if_neg h]
      rw [List.foldl_append, ih (n / 10) (by omega) acc]
      simp only [List.foldl_cons, List.foldl_nil, List.length_append, List.length_singleton]
      rw [(digChar_spec _ (Nat.mod_lt _ (by omega))).1]
      rw [pow_succ, ← mul_assoc]
      omega

theorem digitsVal_natChars (n : Nat) : digitsVal (natChars n) = n := by
  unfold digitsVal
  rw [foldl_digits_natChars n 0]
  simp

/-- A remainder the digit scanner will not consume from. -/
def noDigHead : Str → Bool
  | [] => true
  | c :: _ => !isDig c

/-- A remainder that cannot extend a rendered number: no leading digit,
decimal point or exponent marker. -/
def noNumExt : Str → Bool
  | [] => true
  | c :: _ => !(isDig c || c == '.' || c == 'e' || c == 'E')

theorem digitSpan_stop (rest : Str) (h : noDigHead rest = true) : digitSpan rest = ([], rest) := by
  cases rest with
  | nil => rfl
  | cons c t =>
    simp only [noDigHead, Bool.not_eq_true'] at h
    simp [digitSpan, h]

theorem digitSpan_run (ds : Str) (hds : ∀ c ∈ ds, isDig c = true) :
    ∀ rest : Str, noDigHead rest = true → digitSpan (ds ++ rest) = (ds, rest) := by
  induction ds with
  | nil => intro rest hr; simpa using digitSpan_stop rest hr
  | cons c t ih =>
    intro rest hr
    have hc := hds c (by simp)
    have ht := ih (fun x hx => hds x (by simp [hx])) rest hr
    simp [digitSpan, hc, ht]

theorem noNumExt_noDigHead (rest : Str) (h : noNumExt rest = true) : noDigHead rest = true := by
  cases rest with
  | nil => rfl
  | cons c t =>
    simp only [noNumExt, Bool.not_eq_true', Bool.or_eq_false_iff] at h
    simp [noDigHead, h.1.1.1]

theorem noNumExt_head (c : Char) (t : Str) (h : noNumExt (c :: t) = true) :
    isDig c = false ∧ c ≠ '.' ∧ c ≠ 'e' ∧ c ≠ 'E' := by
  simp only [noNumExt, Bool.not_eq_true', Bool.or_eq_false_iff, beq_eq_false_iff_ne] at h
  exact ⟨h.1.1.1, h.1.1.2, h.1.2, h.2⟩

theorem isDig_ne_special (c : Char) (h : isDig c = true) :
    c ≠ '-' ∧ c ≠ '.' ∧ c ≠ 'e' ∧ c ≠ 'E' := by
  refine ⟨fun hc => ?_, fun hc => ?_, fun hc => ?_, fun hc => ?_⟩ <;>
    (subst hc; exact absurd h (by decide))

theorem numFracPart_stop (rest : Str) (hr : noNumExt rest = true) :
    numFracPart rest = some ([], rest) := by
  cases rest with
  | nil => rfl
  | cons c t =>
    obtain ⟨_, hdot, _, _⟩ := noNumExt_head c t hr
    simp [numFracPart, hdot]

theorem numExpPart_stop (rest : Str) (hr : noNumExt rest = true) :
    numExpPart rest = some (0, rest) := by
  cases rest with
  | nil => rfl
  | cons c t =>
    obtain ⟨_, _, he, hE⟩ := noNumExt_head c t hr
    have hne : ¬(c = 'e' ∨ c = 'E') := by
      rintro (rfl | rfl)
      · exact he rfl
      · exact hE rfl
    simp [numExpPart, hne]

/-- Parsing a rendered natural number yields it back with exponent zero,
whenever the remainder cannot extend the numeral. -/
theorem numParse_natChars (n : Nat) (rest : Str) (hr : noNumExt rest = true) :
    numParse (natChars n ++ rest) = some (⟨(n : Int), 0⟩, rest) := by
  have hsign : numSign (natChars n ++ rest) = (false, natChars n ++ rest) := by
    obtain ⟨c0, t0, hheq, hdig⟩ :
        ∃ c0 t0, natChars n = c0 :: t0 ∧ isDig c0 = true := by
      rcases hx : natChars n with _ | ⟨c0, t0⟩
      · exact absurd hx (natChars_ne_nil n)
      · exact ⟨c0, t0, rfl, natChars_digits n c0 (hx ▸ List.mem_cons_self _ _)⟩
    obtain ⟨hdash, _, _, _⟩ := isDig_ne_special c0 hdig
    rw [hheq]
    simp [numSign, hdash]
  have hint : numIntPart (natChars n ++ rest) = some (n, rest) := by
    by_cases hn : n = 0
    · subst hn
      rw [show natChars 0 = ['0'] from rfl]
      cases rest <;> simp [numIntPart]
    · obtain ⟨c0, t0, hheq, hdig, hne0⟩ := natChars_head n hn
      have hcons : natChars n ++ rest = c0 :: (t0 ++ rest) := by rw [hheq]; simp
      rw [hcons]
      unfold numIntPart
      dsimp only
      rw [if_neg hne0, if_pos hdig]
      rw [show c0 :: (t0 ++ rest) = natChars n ++ rest from hcons.symm]
      rw [digitSpan_run (natChars n) (natChars_digits n) rest (noNumExt_noDigHead rest hr)]
      rw [digitsVal_natChars]
  unfold numParse
  rw [hsign]
  dsimp only
  rw [hint]
  dsimp only
  rw [numFracPart_stop rest hr]
  dsimp only
  rw [numExpPart_stop rest hr]
  simp [digitsVal]

/-! ## JSON strings: escaping and parsing are inverse -/

theorem hexVal_hexChar : ∀ d, d < 16 → hexVal? (hexChar d) = some d := by decide

theorem strBodyAux_esc (c : Char) (r : Str) (fuel : Nat) :
    strBodyAux (fuel + 1) (quoteEsc c ++ r)
      = (strBodyAux fuel r).map (fun p => (c :: p.1, p.2)) := by
  by_cases h1 : c = '"'
  · subst h1
    rw [show quoteEsc '"' = ['\\', '"'] from rfl]
    simp [strBodyAux, escDecode]
  by_cases h2 : c = '\\'
  · subst h2
    rw [show quoteEsc '\\' = ['\\', '\\'] from rfl]
    simp [strBodyAux, escDecode]
  by_cases h3 : c = '\x08'
  · subst h3
    rw [show quoteEsc '\x08' = ['\\', 'b'] from rfl]
    simp [strBodyAux, escDecode]
  by_cases h4 : c = '\t'
  · subst h4
    rw [show quoteEsc '\t' = ['\\', 't'] from rfl]
    simp [strBodyAux, escDecode]
  by_cases h5 : c = '\n'
  · subst h5
    rw [show quoteEsc '\n' = ['\\', 'n'] from rfl]
    simp [strBodyAux, escDecode]
  by_cases h6 : c = '\x0c'
  · subst h6
    rw [show quoteEsc '\x0c' = ['\\', 'f'] from rfl]
    simp [strBodyAux, escDecode]
  by_cases h7 : c = '\r'
  · subst h7
    rw [show quoteEsc '\r' = ['\\', 'r'] from rfl]
    simp [strBodyAux, escDecode]
  by_cases h8 : c.toNat < 0x20
  · simp only [quoteEsc, if_neg h1, if_neg h2, if_neg h3, if_neg h4, if_neg h5, if_neg h6,
      if_neg h7, if_pos h8, List.cons_append, List.nil_append]
    have hhex : hex4Val '0' '0' (hexChar (c.toNat / 16)) (hexChar (c.toNat % 16))
        = some c.toNat := by
      unfold hex4Val
      rw [show hexVal? '0' = some 0 from by decide,
        hexVal_hexChar (c.toNat / 16) (by omega), hexVal_hexChar (c.toNat % 16) (by omega)]
      dsimp only
      rw [show ((0 * 16 + 0) * 16 + c.toNat / 16) * 16 + c.toNat % 16 = c.toNat by omega]
    have hdec : escDecode ('u' :: '0' :: '0' :: hexChar (c.toNat / 16)
        :: hexChar (c.toNat % 16) :: r) = some (c, r) := by
      unfold escDecode
      dsimp only
      rw [if_neg (by decide : ¬('u' = '"')), if_neg (by decide : ¬('u' = '\\')),
        if_neg (by decide : ¬('u' = '/')), if_neg (by decide : ¬('u' = 'b')),
        if_neg (by decide : ¬('u' = 'f')), if_neg (by decide : ¬('u' = 'n')),
        if_neg (by decide : ¬('u' = 'r')), if_neg (by decide : ¬('u' = 't')), if_pos rfl]
      try dsimp only
      rw [hhex]
      try dsimp only
      rw [if_pos (Or.inl (show c.toNat < 0xD800 by omega))]
      rw [Char.ofNat_toNat]
    unfold strBodyAux
    try dsimp only
    rw [if_neg (by decide : ¬('\\' = '"')), if_pos rfl, hdec]
    dsimp only
    rw [← strBodyAux.eq_def]
  · simp only [quoteEsc, if_neg h1, if_neg h2, if_neg h3, if_neg h4, if_neg h5, if_neg h6,
      if_neg h7, if_neg h8, List.cons_append, List.nil_append]
    unfold strBodyAux
    try dsimp only
    rw [if_neg h1, if_neg h2, if_neg h8, ← strBodyAux.eq_def]

theorem strBodyAux_quoted (s : Str) :
    ∀ (fuel : Nat) (rest : Str), s.length < fuel →
      strBodyAux fuel ((s.map quoteEsc).flatten ++ '"' :: rest) = some (s, rest) := by
  induction s with
  | nil =>
    intro fuel rest hf
    obtain ⟨f, rfl⟩ := fuelSucc fuel (by omega)
    simp [strBodyAux]
  | cons c cs ih =>
    intro fuel rest hf
    obtain ⟨f, rfl⟩ := fuelSucc fuel (by omega)
    rw [List.map_cons, List.flatten_cons, List.append_assoc, strBodyAux_esc,
      ih f rest (by simpa using hf)]
    rfl

theorem quoteEsc_length_pos (c : Char) : 1 ≤ (quoteEsc c).length := by
  unfold quoteEsc
  split
  · simp
  all_goals split
  · simp
  all_goals split
  · simp
  all_goals split
  · simp
  all_goals split
  · simp
  all_goals split
  · simp
  all_goals split
  · simp
  all_goals split <;> simp

theorem length_le_escaped (s : Str) : s.length ≤ ((s.map quoteEsc).flatten).length := by
  induction s with
  | nil => simp
  | cons c cs ih =>
    rw [List.map_cons, List.flatten_cons, List.length_append, List.length_cons]
    have := quoteEsc_length_pos c
    omega

/-- Parsing a quoted string body recovers the original characters. -/
theorem strBody_quoted (s : Str) (rest : Str) :
    strBody ((s.map quoteEsc).flatten ++ '"' :: rest) = some (s, rest) := by
  unfold strBody
  apply strBodyAux_quoted
  have := length_le_escaped s
  simp only [List.length_append, List.length_cons]
  omega

/-! ## `JSON.parse` inverts `JSON.stringify` on payload-shaped values -/

mutual

/-- Values whose stringify/parse round trip is proved below: any nesting of
objects, arrays, strings and booleans, with numbers restricted to the
non-negative integers the codec writes (`size` fields). -/
def goodJs : JsValue → Bool
  | .null => true
  | .bool _ => true
  | .num n => n.exp == 0 && decide (0 ≤ n.mant)
  | .str _ => true
  | .arr xs => goodArr xs
  | .obj fs => goodFields fs

def goodArr : List JsValue → Bool
  | [] => true
  | x :: xs => goodJs x && goodArr xs

def goodFields : List (Str × JsValue) → Bool
  | [] => true
  | (_, v) :: fs => goodJs v && goodFields fs

end

theorem jsNumRender_nat (n : Nat) : jsNumRender ⟨(n : Int), 0⟩ = natChars n := by
  by_cases h : n = 0
  · subst h; rfl
  · unfold jsNumRender
    dsimp only
    rw [if_neg (show ¬((n : Int) = 0) from by exact_mod_cast h)]
    rw [if_neg (by omega : ¬((n : Int) < 0)), if_pos (le_refl (0 : Int))]
    simp

theorem isDig_head_facts (c : Char) (h : isDig c = true) :
    jsonWs c = false ∧ c ≠ ']' ∧ c ≠ '\x7d' ∧ c ≠ ',' ∧ c ≠ 'n' ∧ c ≠ 't' ∧ c ≠ 'f' ∧
      c ≠ '"' ∧ c ≠ '[' ∧ c ≠ '\x7b' := by
  have hsp : c ≠ ' ' := fun hc => by subst hc; exact absurd h (by decide)
  have htb : c ≠ '\t' := fun hc => by subst hc; exact absurd h (by decide)
  have hnl : c ≠ '\n' := fun hc => by subst hc; exact absurd h (by decide)
  have hcr : c ≠ '\r' := fun hc => by subst hc; exact absurd h (by decide)
  have hne : ∀ x : Char, isDig x = false → c ≠ x := by
    intro x hx hc
    rw [hc, hx] at h
    exact Bool.false_ne_true h
  exact ⟨by simp [jsonWs, hsp, htb, hnl, hcr], hne ']' rfl, hne '\x7d' rfl, hne ',' rfl,
    hne 'n' rfl, hne 't' rfl, hne 'f' rfl, hne '"' rfl, hne '[' rfl, hne '\x7b' rfl⟩

/-- The number head: a good number renders with a digit first. -/
theorem natChars_head_dig (n : Nat) :
    ∃ c t, natChars n = c :: t ∧ isDig c = true := by
  by_cases hn : n = 0
  · exact ⟨'0', [], by rw [hn]; rfl, by decide⟩
  · obtain ⟨c, t, heq, hd, _⟩ := natChars_head n hn
    exact ⟨c, t, heq, hd⟩

/-- A head character is harmless when it is neither whitespace nor a
closing bracket, packaged as one boolean test. -/
theorem headOk (x : Char) (hx : (jsonWs x || (x == ']') || (x == '\x7d')) = false) :
    jsonWs x = false ∧ x ≠ ']' ∧ x ≠ '\x7d' := by
  simp only [Bool.or_eq_false_iff, beq_eq_false_iff_ne, ne_eq] at hx
  exact ⟨hx.1.1, hx.1.2, hx.2⟩

/-- Every rendered good value starts with a character that is not whitespace
and closes no bracket (so container parsing never mistakes it for an end). -/
theorem jsStringify_head (v : JsValue) (hg : goodJs v = true) :
    ∃ c t, jsStringify v = c :: t ∧ jsonWs c = false ∧ c ≠ ']' ∧ c ≠ '\x7d' := by
  cases v with
  | null => exact ⟨'n', _, rfl, headOk 'n' rfl⟩
  | bool b => cases b with
    | false => exact ⟨'f', _, rfl, headOk 'f' rfl⟩
    | true => exact ⟨'t', _, rfl, headOk 't' rfl⟩
  | str s => exact ⟨'"', _, rfl, headOk '"' rfl⟩
  | arr xs => exact ⟨'[', _, rfl, headOk '[' rfl⟩
  | obj fs => exact ⟨'\x7b', _, rfl, headOk '\x7b' rfl⟩
  | num n =>
    obtain ⟨m, e⟩ := n
    simp only [goodJs, Bool.and_eq_true, beq_iff_eq, decide_eq_true_eq] at hg
    obtain ⟨rfl, hm⟩ := hg
    have hrw : jsStringify (.num ⟨m, 0⟩) = natChars m.toNat := by
      show jsNumRender ⟨m, 0⟩ = _
      rw [show m = ((m.toNat : Nat) : Int) from (Int.toNat_of_nonneg hm).symm]
      exact jsNumRender_nat m.toNat
    obtain ⟨c, t, heq, hd⟩ := natChars_head_dig m.toNat
    obtain ⟨hws, hbr, hbc, _⟩ := isDig_head_facts c hd
    exact ⟨c, t, by rw [hrw, heq], hws, hbr, hbc⟩

theorem wsDrop_not_ws (c : Char) (t : Str) (h : jsonWs c = false) : wsDrop (c :: t) = c :: t := by
  simp [wsDrop, h]

/-- The value parser at a head that can only start a number defers to the
number grammar. -/
theorem jsonVal_numStep (f : Nat) (a0 : Char) (t : Str) (w0 : jsonWs a0 = false)
    (n1 : a0 ≠ 'n') (n2 : a0 ≠ 't') (n3 : a0 ≠ 'f')
    (n4 : a0 ≠ '"') (n5 : a0 ≠ '[') (n6 : a0 ≠ '\x7b')
    (n7 : a0 = '-' ∨ isDig a0) :
    jsonVal (f + 1) (a0 :: t)
      = (numParse (a0 :: t)).map (fun p => (JsValue.num p.1, p.2)) := by
  simp only [jsonVal]
  rw [wsDrop_not_ws a0 t w0]
  simp [n1, n2, n3, n4, n5, n6, n7]

/-- The value parser behind `[` wraps the element parser whenever the first
element's render cannot be mistaken for `]`. -/
theorem jsonVal_arrStep (f : Nat) (c0 : Char) (t : Str)
    (hws : jsonWs c0 = false) (hbr : c0 ≠ ']') :
    jsonVal (f + 1) ('[' :: (c0 :: t))
      = (jsonElems f (c0 :: t)).map (fun p => (JsValue.arr p.1, p.2)) := by
  simp only [jsonVal]
  rw [show wsDrop ('[' :: (c0 :: t)) = '[' :: (c0 :: t) from by simp [wsDrop, jsonWs]]
  have h1 : wsDrop (c0 :: t) = c0 :: t := wsDrop_not_ws c0 t hws
  simp [h1, hbr]

/-- The value parser behind a `{` followed by a key wraps the member parser. -/
theorem jsonVal_objStep (f : Nat) (t : Str) :
    jsonVal (f + 1) ('\x7b' :: ('"' :: t))
      = (jsonMembers f ('"' :: t)).map (fun p => (JsValue.obj p.1, p.2)) := by
  simp only [jsonVal]
  rw [show wsDrop ('\x7b' :: ('"' :: t)) = '\x7b' :: ('"' :: t) from by simp [wsDrop, jsonWs]]
  have h1 : wsDrop ('"' :: t) = '"' :: t := by simp [wsDrop, jsonWs]
  simp [h1]

mutual

theorem rtVal : ∀ (v : JsValue) (fuel : Nat) (rest : Str),
    goodJs v = true → (jsStringify v).length < fuel → noNumExt rest = true →
    jsonVal fuel (jsStringify v ++ rest) = some (v, rest)
  | .null, fuel, rest, _, hfu, _ => by
    obtain ⟨f, rfl⟩ := fuelSucc fuel (by omega)
    simp [jsonVal, wsDrop, jsonWs, jsStringify]
  | .bool true, fuel, rest, _, hfu, _ => by
    obtain ⟨f, rfl⟩ := fuelSucc fuel (by omega)
    simp [jsonVal, wsDrop, jsonWs, jsStringify]
  | .bool false, fuel, rest, _, hfu, _ => by
    obtain ⟨f, rfl⟩ := fuelSucc fuel (by omega)
    simp [jsonVal, wsDrop, jsonWs, jsStringify]
  | .num n, fuel, rest, hg, hfu, hrest => by
    obtain ⟨f, rfl⟩ := fuelSucc fuel (by omega)
    obtain ⟨m, e⟩ := n
    simp only [goodJs, Bool.and_eq_true, beq_iff_eq, decide_eq_true_eq] at hg
    obtain ⟨rfl, hm⟩ := hg
    have hrw : jsStringify (.num ⟨m, 0⟩) = natChars m.toNat := by
      show jsNumRender ⟨m, 0⟩ = _
      rw [show m = ((m.toNat : Nat) : Int) from (Int.toNat_of_nonneg hm).symm]
      exact jsNumRender_nat m.toNat
    obtain ⟨c0, t0, heq, hd⟩ := natChars_head_dig m.toNat
    obtain ⟨hws, _, _, _, hn, ht, hf2, hq, hbk, hbc⟩ := isDig_head_facts c0 hd
    rw [hrw, heq, List.cons_append, jsonVal_numStep f c0 (t0 ++ rest) hws hn ht hf2 hq hbk hbc
      (Or.inr hd)]
    rw [show c0 :: (t0 ++ rest) = natChars m.toNat ++ rest from by rw [heq]; simp]
    rw [numParse_natChars m.toNat rest hrest]
    simp only [Option.map_some']
    rw [show ((m.toNat : Nat) : Int) = m from Int.toNat_of_nonneg hm]
  | .str s, fuel, rest, _, hfu, _ => by
    obtain ⟨f, rfl⟩ := fuelSucc fuel (by omega)
    have harg : jsStringify (.str s) ++ rest
        = '"' :: ((s.map quoteEsc).flatten ++ '"' :: rest) := by
      show quoteStr s ++ rest = _
      simp [quoteStr]
    rw [harg]
    simp only [jsonVal]
    rw [show wsDrop ('"' :: ((s.map quoteEsc).flatten ++ '"' :: rest))
        = '"' :: ((s.map quoteEsc).flatten ++ '"' :: rest) from by simp [wsDrop, jsonWs]]
    simp [strBody_quoted]
  | .arr [], fuel, rest, _, hfu, _ => by
    obtain ⟨f, rfl⟩ := fuelSucc fuel (by omega)
    simp [jsonVal, wsDrop, jsonWs, jsStringify, joinStr]
  | .arr (x :: xs), fuel, rest, hg, hfu, _ => by
    obtain ⟨f, rfl⟩ := fuelSucc fuel (by omega)
    simp only [goodJs, goodArr, Bool.and_eq_true] at hg
    have hgx : goodJs x = true := hg.1
    have harg : jsStringify (.arr (x :: xs)) ++ rest
        = '[' :: (joinStr (x :: xs) ++ ']' :: rest) := by
      show '[' :: (joinStr (x :: xs) ++ [']']) ++ rest = _
      simp
    obtain ⟨c0, t0, hheq, hws, hbr, _⟩ := jsStringify_head x hgx
    obtain ⟨w, hw⟩ : ∃ w, joinStr (x :: xs) ++ ']' :: rest = c0 :: w := by
      cases xs with
      | nil => exact ⟨t0 ++ ']' :: rest, by simp [joinStr, hheq]⟩
      | cons y ys =>
        exact ⟨t0 ++ ',' :: (joinStr (y :: ys) ++ ']' :: rest), by simp [joinStr, hheq]⟩
    have hfe : (joinStr (x :: xs)).length + 1 < f := by
      have : jsStringify (.arr (x :: xs)) = '[' :: (joinStr (x :: xs) ++ [']']) := rfl
      rw [this] at hfu
      simp only [List.length_cons, List.length_append, List.length_singleton] at hfu
      omega
    have key := rtElems x xs f rest (by simp [goodArr, hg.1, hg.2]) hfe
    rw [harg, hw, jsonVal_arrStep f c0 w hws hbr, ← hw, key]
    rfl
  | .obj [], fuel, rest, _, hfu, _ => by
    obtain ⟨f, rfl⟩ := fuelSucc fuel (by omega)
    simp [jsonVal, wsDrop, jsonWs, jsStringify, joinObj]
  | .obj ((k, v) :: fs), fuel, rest, hg, hfu, _ => by
    obtain ⟨f, rfl⟩ := fuelSucc fuel (by omega)
    simp only [goodJs, goodFields, Bool.and_eq_true] at hg
    have harg : jsStringify (.obj ((k, v) :: fs)) ++ rest
        = '\x7b' :: (joinObj ((k, v) :: fs) ++ '\x7d' :: rest) := by
      show '\x7b' :: (joinObj ((k, v) :: fs) ++ ['\x7d']) ++ rest = _
      simp
    obtain ⟨w, hw⟩ : ∃ w, joinObj ((k, v) :: fs) ++ '\x7d' :: rest = '"' :: w := by
      cases fs with
      | nil =>
        exact ⟨(k.map quoteEsc).flatten ++ '"' :: (':' :: (jsStringify v ++ '\x7d' :: rest)),
          by simp [joinObj, quoteStr]⟩
      | cons p ps =>
        exact ⟨(k.map quoteEsc).flatten ++ '"'
            :: (':' :: (jsStringify v ++ ',' :: (joinObj (p :: ps) ++ '\x7d' :: rest))),
          by simp [joinObj, quoteStr]⟩
    have hfm : (joinObj ((k, v) :: fs)).length + 1 < f := by
      have : jsStringify (.obj ((k, v) :: fs)) = '\x7b' :: (joinObj ((k, v) :: fs) ++ ['\x7d']) :=
        rfl
      rw [this] at hfu
      simp only [List.length_cons, List.length_append, List.length_singleton] at hfu
      omega
    have key := rtMembers k v fs f rest (by simp [goodFields, hg.1, hg.2]) hfm
    rw [harg, hw, jsonVal_objStep f w, ← hw, key]
    rfl
  termination_by v => sizeOf v

theorem rtElems : ∀ (x : JsValue) (xs : List JsValue) (fuel : Nat) (rest : Str),
    goodArr (x :: xs) = true → (joinStr (x :: xs)).length + 1 < fuel →
    jsonElems fuel (joinStr (x :: xs) ++ ']' :: rest) = some (x :: xs, rest)
  | x, [], fuel, rest, hg, hfu => by
    obtain ⟨f, rfl⟩ := fuelSucc fuel (by omega)
    simp only [goodArr, Bool.and_eq_true] at hg
    have hone : joinStr [x] ++ ']' :: rest = jsStringify x ++ ']' :: rest := by
      simp [joinStr]
    have hv := rtVal x f (']' :: rest) hg.1
      (by simp only [joinStr] at hfu; omega) rfl
    simp only [jsonElems]
    rw [hone, hv]
    simp [wsDrop, jsonWs]
  | x, y :: ys, fuel, rest, hg, hfu => by
    obtain ⟨f, rfl⟩ := fuelSucc fuel (by omega)
    simp only [goodArr, Bool.and_eq_true] at hg
    have hsplit : joinStr (x :: y :: ys) ++ ']' :: rest
        = jsStringify x ++ ',' :: (joinStr (y :: ys) ++ ']' :: rest) := by
      simp [joinStr]
    have hlen : (jsStringify x).length + 1 + (joinStr (y :: ys)).length
        = (joinStr (x :: y :: ys)).length := by
      simp [joinStr]
      omega
    have hv := rtVal x f (',' :: (joinStr (y :: ys) ++ ']' :: rest)) hg.1 (by omega) rfl
    have key := rtElems y ys f rest (by simp [goodArr, hg.2]) (by omega)
    have hws2 : wsDrop (',' :: (joinStr (y :: ys) ++ ']' :: rest))
        = ',' :: (joinStr (y :: ys) ++ ']' :: rest) := by simp [wsDrop, jsonWs]
    simp only [jsonElems]
    rw [hsplit, hv]
    simp [hws2, key]
  termination_by x xs => sizeOf x + sizeOf xs

theorem rtMembers : ∀ (k : Str) (v : JsValue) (fs : List (Str × JsValue)) (fuel : Nat)
      (rest : Str),
    goodFields ((k, v) :: fs) = true → (joinObj ((k, v) :: fs)).length + 1 < fuel →
    jsonMembers fuel (joinObj ((k, v) :: fs) ++ '\x7d' :: rest) = some ((k, v) :: fs, rest)
  | k, v, [], fuel, rest, hg, hfu => by
    obtain ⟨f, rfl⟩ := fuelSucc fuel (by omega)
    simp only [goodFields, Bool.and_eq_true] at hg
    have hone : joinObj [(k, v)] ++ '\x7d' :: rest
        = '"' :: ((k.map quoteEsc).flatten ++ '"' :: (':' :: (jsStringify v ++ '\x7d' :: rest))) := by
      simp [joinObj, quoteStr]
    have hlen : (jsStringify v).length < f := by
      simp only [joinObj, quoteStr, List.length_append, List.length_cons] at hfu
      omega
    have hv := rtVal v f ('\x7d' :: rest) hg.1 hlen rfl
    have hb := strBody_quoted k (':' :: (jsStringify v ++ '\x7d' :: rest))
    have hw1 : wsDrop (':' :: (jsStringify v ++ '\x7d' :: rest))
        = ':' :: (jsStringify v ++ '\x7d' :: rest) := by simp [wsDrop, jsonWs]
    simp only [jsonMembers]
    rw [hone]
    simp [hb, hw1, hv, wsDrop, jsonWs]
  | k, v, (k2, v2) :: ps, fuel, rest, hg, hfu => by
    obtain ⟨f, rfl⟩ := fuelSucc fuel (by omega)
    simp only [goodFields, Bool.and_eq_true] at hg
    have hsplit : joinObj ((k, v) :: (k2, v2) :: ps) ++ '\x7d' :: rest
        = '"' :: ((k.map quoteEsc).flatten ++ '"' :: (':' :: (jsStringify v
            ++ ',' :: (joinObj ((k2, v2) :: ps) ++ '\x7d' :: rest)))) := by
      simp [joinObj, quoteStr]
    have hlen2 : (jsStringify v).length < f ∧ (joinObj ((k2, v2) :: ps)).length + 1 < f := by
      simp only [joinObj, quoteStr, List.length_append, List.length_cons] at hfu
      constructor <;> omega
    have hv := rtVal v f (',' :: (joinObj ((k2, v2) :: ps) ++ '\x7d' :: rest)) hg.1 hlen2.1 rfl
    have key := rtMembers k2 v2 ps f rest (by simp [goodFields, hg.2]) hlen2.2
    have hb := strBody_quoted k
      (':' :: (jsStringify v ++ ',' :: (joinObj ((k2, v2) :: ps) ++ '\x7d' :: rest)))
    have hw1 : wsDrop (':' :: (jsStringify v ++ ',' :: (joinObj ((k2, v2) :: ps) ++ '\x7d' :: rest)))
        = ':' :: (jsStringify v ++ ',' :: (joinObj ((k2, v2) :: ps) ++ '\x7d' :: rest)) := by
      simp [wsDrop, jsonWs]
    have hw2 : wsDrop (',' :: (joinObj ((k2, v2) :: ps) ++ '\x7d' :: rest))
        = ',' :: (joinObj ((k2, v2) :: ps) ++ '\x7d' :: rest) := by simp [wsDrop, jsonWs]
    simp only [jsonMembers]
    rw [hsplit]
    simp [hb, hw1, hw2, hv, key, wsDrop, jsonWs]
  termination_by k v fs => sizeOf v + sizeOf fs

end

/-- `JSON.parse` inverts `JSON.stringify` on payload-shaped values. -/
theorem jsonParse_stringify (v : JsValue) (hg : goodJs v = true) :
    jsonParse (jsStringify v) = some v := by
  have hv := rtVal v ((jsStringify v).length + 1) [] hg (by omega) rfl
  rw [List.append_nil] at hv
  unfold jsonParse
  rw [hv]
  rfl

/-! ## The container codec

The four exported operations, translated statement by statement.

Modelling notes shared by all four:
* An `ArrayBuffer` / `Uint8Array` is a `List Nat` of byte values (`< 256`
  wherever a theorem needs it — the typed-array invariant).
* An absent (`undefined`) password and the empty string drive the same
  branches in the source (`!!password` and `if (password)` are both false),
  so both are modelled as `[]`.
* `generateId()` only fills the `id` field of an extracted file from
  `Math.random()`/`Date.now()`; no property the spec states depends on it,
  so the model omits the field. -/

/-- `buffer.slice(s, e)` (`ArrayBuffer.prototype.slice` clamping: a negative
index counts from the end, everything is clamped to `[0, length]`, and a
crossed range is empty). -/
def sliceBytes (l : List Nat) (s e : Int) : List Nat :=
  let len : Int := l.length
  let s1 : Nat := (if s < 0 then max (len + s) 0 else min s len).toNat
  let e1 : Nat := (if e < 0 then max (len + e) 0 else min e len).toNat
  (l.take e1).drop s1

/-- A secret file on the embed side: `File` metadata plus content bytes.
`file.size` is the `Blob` byte length, i.e. `content.length`. -/
structure SecretFile where
  name : Str
  type : Str
  content : List Nat
deriving DecidableEq

/-- An extracted hidden file. `name`/`size`/`type` hold whatever the payload
document's entry carried (`none` models `undefined` when the key is absent);
`data` holds the `atob`-decoded bytes. The random `id` field is omitted. -/
structure HiddenFile where
  name : Option JsValue
  size : Option JsValue
  type : Option JsValue
  data : List Nat
deriving DecidableEq

/-- The result record of `checkForHiddenData`. -/
structure DetectResult where
  found : Bool
  hasPassword : Bool
deriving DecidableEq

/-- The distinct failure exits of `extractFiles`, in source order: the three
framing `throw`s, the two `try/catch`-raised errors, the `files`-shape check,
and the two uncaught exceptions the mapping step can raise (a `TypeError`
reading a property of `null`, and `atob`'s `InvalidCharacterError`). -/
inductive ExtractErr where
  | tooSmall
  | noMagic
  | badSize
  | decodeUtf8
  | parseJson
  | noFiles
  | nullAccess
  | atobInvalid
deriving DecidableEq

/-- `String(v)` including the `undefined` case (`atob` coerces its argument
to a DOMString). -/
def jsToStringOpt : Option JsValue → Str
  | none => "undefined".toList
  | some v => jsToString v

/-- One entry of `filesData` in `embedFiles`:
`{ name, type, size, dataBase64 }` with `size = file.size`, the content byte
length. -/
def embedEntry (f : SecretFile) : JsValue :=
  .obj [("name".toList, .str f.name),
        ("type".toList, .str f.type),
        ("size".toList, .num ⟨(f.content.length : Int), 0⟩),
        ("dataBase64".toList, .str (arrayBufferToBase64 f.content))]

/-- The `payloadObj` literal of `embedFiles`:
`{ files: filesData, hasPassword: !!password }`. -/
def payloadValue (files : List SecretFile) (password : Str) : JsValue :=
  .obj [("files".toList, .arr (files.map embedEntry)),
        ("hasPassword".toList, .bool (!password.isEmpty))]

/-- `embedFiles` (Pack): JSON-encode the payload, UTF-8 it, XOR-mask it when
a password is given, and append `[payload][4-byte size][4-byte magic]` to the
cover bytes. The returned blob's bytes are this concatenation. -/
def embedFiles (cover : List Nat) (files : List SecretFile) (password : Str) : List Nat :=
  let payloadBytes := xorEncrypt (utf8Encode (jsStringify (payloadValue files password))) password
  cover ++ payloadBytes ++ sizeFieldBytes payloadBytes.length ++ MAGIC_BYTES

/-- The `try`-block tail of `checkForHiddenData`: decode, parse, and read
`obj.hasPassword`; any raise (only the parse, or the property access when the
document is `null`) lands in the `catch`, i.e. `{found: true, hasPassword:
true}`. -/
def checkPayload (payloadBytes : List Nat) : DetectResult :=
  match jsonParse (utf8Dec payloadBytes) with
  | some obj =>
    match jsGetField obj ("hasPassword".toList) with
    | .error _ => ⟨true, true⟩
    | .ok hp => ⟨true, truthyOpt hp⟩
  | none => ⟨true, true⟩

/-- `checkForHiddenData` (Detect). -/
def checkForHiddenData (buffer : List Nat) : DetectResult :=
  if buffer.length < 8 then ⟨false, false⟩
  else if !magicOk buffer then ⟨false, false⟩
  else
    let payloadSize := readPayloadSize buffer
    if payloadSize ≤ 0 ∨ (buffer.length : Int) - 8 < payloadSize then ⟨false, false⟩
    else
      let payloadStart := (buffer.length : Int) - 8 - payloadSize
      checkPayload (sliceBytes buffer payloadStart (payloadStart + payloadSize))

/-- The per-entry object built by `extractFiles`'s final `map`: the four
property reads (`TypeError` when the entry is `null`) and the `atob` decode
(`InvalidCharacterError` on a malformed base64 string) can each raise, and
nothing catches them. -/
def extractEntry (f : JsValue) : Except ExtractErr HiddenFile :=
  match jsGetField f ("name".toList) with
  | .error _ => .error .nullAccess
  | .ok nm =>
    match jsGetField f ("size".toList) with
    | .error _ => .error .nullAccess
    | .ok sz =>
      match jsGetField f ("type".toList) with
      | .error _ => .error .nullAccess
      | .ok ty =>
        match jsGetField f ("dataBase64".toList) with
        | .error _ => .error .nullAccess
        | .ok db =>
          match base64ToArrayBuffer (jsToStringOpt db) with
          | none => .error .atobInvalid
          | some bytes => .ok ⟨nm, sz, ty, bytes⟩

/-- `payloadObj.files.map(...)` over the entries: JavaScript's `map` runs
left to right and the first raised exception aborts the whole call. -/
def mapEntries : List JsValue → Except ExtractErr (List HiddenFile)
  | [] => .ok []
  | f :: rest =>
    match extractEntry f with
    | .error e => .error e
    | .ok h =>
      match mapEntries rest with
      | .error e => .error e
      | .ok hs => .ok (h :: hs)

/-- The tail of `extractFiles` after `JSON.parse` succeeded: the
`!payloadObj.files || !Array.isArray(payloadObj.files)` guard, then the entry
map. -/
def extractPayload (payloadObj : JsValue) : Except ExtractErr (List HiddenFile) :=
  match jsGetField payloadObj ("files".toList) with
  | .error _ => .error .nullAccess
  | .ok filesOpt =>
    if !truthyOpt filesOpt then .error .noFiles
    else
      match filesOpt with
      | some (.arr elems) => mapEntries elems
      | _ => .error .noFiles

/-- `extractFiles` (Unpack). The `TextDecoder` step appears without an error
exit: the source wraps it in `try/catch`, but the default (non-fatal) decoder
of the WHATWG encoding standard is total — it substitutes U+FFFD instead of
throwing — which is exactly the embedded `utf8Dec`; the `ExtractErr.decodeUtf8`
value for that `catch` therefore never arises. -/
def extractFiles (buffer : List Nat) (password : Str) : Except ExtractErr (List HiddenFile) :=
  if buffer.length < 8 then .error .tooSmall
  else if !magicOk buffer then .error .noMagic
  else
    let payloadSize := readPayloadSize buffer
    if payloadSize ≤ 0 ∨ (buffer.length : Int) - 8 < payloadSize then .error .badSize
    else
      let payloadStart := (buffer.length : Int) - 8 - payloadSize
      let payloadBytes := xorEncrypt (sliceBytes buffer payloadStart (payloadStart + payloadSize))
        password
      match jsonParse (utf8Dec payloadBytes) with
      | none => .error .parseJson
      | some payloadObj => extractPayload payloadObj

/-- A property whose value is `undefined` is omitted by `JSON.stringify`. -/
def optField (k : Str) : Option JsValue → List (Str × JsValue)
  | none => []
  | some v => [(k, v)]

/-- One entry of `filesData` in `reEmbedFiles`:
`{ name: f.name, type: f.type, size: f.size, dataBase64:
arrayBufferToBase64(f.data) }`. -/
def reEntry (f : HiddenFile) : JsValue :=
  .obj (optField ("name".toList) f.name ++ optField ("type".toList) f.type ++
        optField ("size".toList) f.size ++
        [("dataBase64".toList, .str (arrayBufferToBase64 f.data))])

/-- The `payloadObj` literal of `reEmbedFiles`. -/
def repackValue (files : List HiddenFile) (password : Str) : JsValue :=
  .obj [("files".toList, .arr (files.map reEntry)),
        ("hasPassword".toList, .bool (!password.isEmpty))]

/-- The fresh payload bytes `reEmbedFiles` writes. -/
def repackPayloadBytes (files : List HiddenFile) (password : Str) : List Nat :=
  xorEncrypt (utf8Encode (jsStringify (repackValue files password))) password

/-- `reEmbedFiles` (Repack). It reads the trailer's size field with **no**
check whatsoever — no length, magic, or bounds test, and no `throw` site at
all (only `TextEncoder`, base64 *encoding* and array writes follow), so the
model is a total function: whatever `slice(0, uint8.length - 8 - payloadSize)`
clamps to becomes the cover. -/
def reEmbedFiles (stego : List Nat) (files : List HiddenFile) (password : Str) : List Nat :=
  let payloadSize := readPayloadSize stego
  let coverEnd := (stego.length : Int) - 8 - payloadSize
  let coverBytes := sliceBytes stego 0 coverEnd
  let payloadBytes := repackPayloadBytes files password
  coverBytes ++ payloadBytes ++ sizeFieldBytes payloadBytes.length ++ MAGIC_BYTES

/-- The `HiddenFile` that extraction recovers for an embedded `SecretFile`:
the same name, MIME type, declared size (= content byte length) and bytes. -/
def fileAsHidden (f : SecretFile) : HiddenFile :=
  ⟨some (.str f.name), some (.num ⟨(f.content.length : Int), 0⟩),
   some (.str f.type), f.content⟩

/-- The `HiddenFile`s reaching `reEmbedFiles` in the app: string name and
type, a non-negative integer size, and byte-valued data. -/
def wfHidden (f : HiddenFile) : Bool :=
  (match f.name with | some (.str _) => true | _ => false) &&
  (match f.type with | some (.str _) => true | _ => false) &&
  (match f.size with | some (.num n) => n.exp == 0 && decide (0 ≤ n.mant) | _ => false) &&
  f.data.all (· < 256)

deriving instance DecidableEq for Except

/-! ## Framing lemmas: the trailer written by Pack/Repack reads back -/

theorem byteAt_suffix (front back : List Nat) (m : Int) (h1 : m ≤ back.length) (hm : 0 < m) :
    byteAt (front ++ back) (((front ++ back).length : Int) - m)
      = back.getD (back.length - m.toNat) 0 := by
  unfold byteAt
  have hlen : (front ++ back).length = front.length + back.length := by simp
  rw [if_pos (by omega)]
  have htn : (((front ++ back).length : Int) - m).toNat
      = front.length + (back.length - m.toNat) := by
    rw [hlen]; push_cast; omega
  rw [htn, List.getD_append_right]
  · congr 1
    omega
  · omega

theorem packed_length (c pb : List Nat) (n : Nat) :
    (c ++ pb ++ sizeFieldBytes n ++ MAGIC_BYTES).length = c.length + pb.length + 8 := by
  simp [sizeFieldBytes, MAGIC_BYTES]
  omega

theorem packed_assoc (c pb : List Nat) (n : Nat) :
    c ++ pb ++ sizeFieldBytes n ++ MAGIC_BYTES
      = (c ++ pb) ++ (sizeFieldBytes n ++ MAGIC_BYTES) := by
  simp

theorem magicOk_packed (c pb : List Nat) (n : Nat) :
    magicOk (c ++ pb ++ sizeFieldBytes n ++ MAGIC_BYTES) = true := by
  rw [packed_assoc]
  unfold magicOk
  rw [byteAt_suffix _ _ 4 (by simp [sizeFieldBytes, MAGIC_BYTES]) (by omega),
      byteAt_suffix _ _ 3 (by simp [sizeFieldBytes, MAGIC_BYTES]) (by omega),
      byteAt_suffix _ _ 2 (by simp [sizeFieldBytes, MAGIC_BYTES]) (by omega),
      byteAt_suffix _ _ 1 (by simp [sizeFieldBytes, MAGIC_BYTES]) (by omega)]
  simp [sizeFieldBytes, MAGIC_BYTES]

theorem readPayloadSize_packed (c pb : List Nat) (h2 : pb.length < 2 ^ 31) :
    readPayloadSize (c ++ pb ++ sizeFieldBytes pb.length ++ MAGIC_BYTES) = pb.length := by
  rw [packed_assoc]
  unfold readPayloadSize
  rw [byteAt_suffix _ _ 8 (by simp [sizeFieldBytes, MAGIC_BYTES]) (by omega),
      byteAt_suffix _ _ 7 (by simp [sizeFieldBytes, MAGIC_BYTES]) (by omega),
      byteAt_suffix _ _ 6 (by simp [sizeFieldBytes, MAGIC_BYTES]) (by omega),
      byteAt_suffix _ _ 5 (by simp [sizeFieldBytes, MAGIC_BYTES]) (by omega)]
  have hsum : (sizeFieldBytes pb.length ++ MAGIC_BYTES).getD
        ((sizeFieldBytes pb.length ++ MAGIC_BYTES).length - (8 : Int).toNat) 0 * 16777216 +
      (sizeFieldBytes pb.length ++ MAGIC_BYTES).getD
        ((sizeFieldBytes pb.length ++ MAGIC_BYTES).length - (7 : Int).toNat) 0 * 65536 +
      (sizeFieldBytes pb.length ++ MAGIC_BYTES).getD
        ((sizeFieldBytes pb.length ++ MAGIC_BYTES).length - (6 : Int).toNat) 0 * 256 +
      (sizeFieldBytes pb.length ++ MAGIC_BYTES).getD
        ((sizeFieldBytes pb.length ++ MAGIC_BYTES).length - (5 : Int).toNat) 0
      = pb.length := by
    rw [show ((8 : Int).toNat) = 8 from rfl, show ((7 : Int).toNat) = 7 from rfl,
      show ((6 : Int).toNat) = 6 from rfl, show ((5 : Int).toNat) = 5 from rfl]
    simp only [sizeFieldBytes, MAGIC_BYTES, List.length_append, List.length_cons,
      List.length_nil]
    norm_num
    omega
  rw [hsum]
  unfold toInt32
  rw [if_pos (by omega)]
  congr 1
  omega

theorem sliceBytes_of_bounds (l : List Nat) (s e : Int) (hs : 0 ≤ s) (hsl : s ≤ l.length)
    (he : 0 ≤ e) (hel : e ≤ l.length) :
    sliceBytes l s e = (l.take e.toNat).drop s.toNat := by
  unfold sliceBytes
  dsimp only
  rw [if_neg (by omega), if_neg (by omega)]
  congr 2
  · omega
  · omega

theorem slice_payload (c pb tail : List Nat) (ht : tail.length = 8) :
    sliceBytes ((c ++ pb) ++ tail) ((((c ++ pb) ++ tail).length : Int) - 8 - pb.length)
      (((((c ++ pb) ++ tail).length : Int) - 8 - pb.length) + pb.length) = pb := by
  have hL : ((c ++ pb) ++ tail).length = c.length + pb.length + 8 := by
    simp [ht]
    omega
  rw [sliceBytes_of_bounds _ _ _ (by rw [hL]; push_cast; omega) (by rw [hL]; push_cast; omega)
    (by rw [hL]; push_cast; omega) (by rw [hL]; push_cast; omega)]
  rw [show (((((c ++ pb) ++ tail).length : Int) - 8 - pb.length) + pb.length).toNat
      = (c ++ pb).length from by simp [hL]; omega]
  rw [show ((((c ++ pb) ++ tail).length : Int) - 8 - pb.length).toNat = c.length from by
    simp [hL]; omega]
  rw [List.take_left, List.drop_left]

/-- Unpack's framing phase on any container laid out by the embedder: all
three guards pass and exactly the payload bytes reach the decode stage. -/
theorem extractFiles_packed (c pb : List Nat) (pwd : Str)
    (h1 : 1 ≤ pb.length) (h2 : pb.length < 2 ^ 31) :
    extractFiles (c ++ pb ++ sizeFieldBytes pb.length ++ MAGIC_BYTES) pwd
      = (match jsonParse (utf8Dec (xorEncrypt pb pwd)) with
         | none => .error .parseJson
         | some payloadObj => extractPayload payloadObj) := by
  have hL := packed_length c pb pb.length
  unfold extractFiles
  rw [if_neg (by omega)]
  rw [magicOk_packed]
  simp only [Bool.not_true, Bool.false_eq_true, if_false]
  rw [readPayloadSize_packed c pb h2]
  rw [if_neg (by rw [hL]; push_cast; omega)]
  rw [show c ++ pb ++ sizeFieldBytes pb.length ++ MAGIC_BYTES
      = (c ++ pb) ++ (sizeFieldBytes pb.length ++ MAGIC_BYTES) from packed_assoc c pb pb.length]
  rw [slice_payload c pb _ (by simp [sizeFieldBytes, MAGIC_BYTES])]

/-- Detect's framing phase on any container laid out by the embedder. -/
theorem checkForHiddenData_packed (c pb : List Nat)
    (h1 : 1 ≤ pb.length) (h2 : pb.length < 2 ^ 31) :
    checkForHiddenData (c ++ pb ++ sizeFieldBytes pb.length ++ MAGIC_BYTES)
      = checkPayload pb := by
  have hL := packed_length c pb pb.length
  unfold checkForHiddenData
  rw [if_neg (by omega)]
  rw [magicOk_packed]
  simp only [Bool.not_true, Bool.false_eq_true, if_false]
  rw [readPayloadSize_packed c pb h2]
  rw [if_neg (by rw [hL]; push_cast; omega)]
  rw [show c ++ pb ++ sizeFieldBytes pb.length ++ MAGIC_BYTES
      = (c ++ pb) ++ (sizeFieldBytes pb.length ++ MAGIC_BYTES) from packed_assoc c pb pb.length]
  rw [slice_payload c pb _ (by simp [sizeFieldBytes, MAGIC_BYTES])]

/-! ## Payload-stage lemmas -/

theorem jsNumRender_ne_nil (n : JsNum) : jsNumRender n ≠ [] := by
  unfold jsNumRender
  split
  · simp
  · dsimp only
    split
    · simp [natChars_ne_nil]
    · split <;> simp [natChars_ne_nil]

theorem jsStringify_ne_nil (v : JsValue) : jsStringify v ≠ [] := by
  cases v with
  | null => simp [jsStringify]
  | bool b => cases b <;> simp [jsStringify]
  | num n => exact jsNumRender_ne_nil n
  | str s => simp [jsStringify, quoteStr]
  | arr xs => simp [jsStringify]
  | obj fs => simp [jsStringify]

theorem one_le_payloadBytes (v : JsValue) : 1 ≤ (utf8Encode (jsStringify v)).length := by
  have h1 : 1 ≤ (jsStringify v).length := by
    have := jsStringify_ne_nil v
    cases h : jsStringify v with
    | nil => exact absurd h this
    | cons a t => simp
  exact le_trans h1 (length_le_utf8Encode_length _)

theorem goodJs_embedEntry (f : SecretFile) : goodJs (embedEntry f) = true := by
  simp [embedEntry, goodJs, goodFields, Int.natCast_nonneg]

theorem goodArr_embedEntries (fs : List SecretFile) :
    goodArr (fs.map embedEntry) = true := by
  induction fs with
  | nil => rfl
  | cons f rest ih => simp [goodArr, goodJs_embedEntry, ih]

theorem goodJs_payloadValue (fs : List SecretFile) (pwd : Str) :
    goodJs (payloadValue fs pwd) = true := by
  simp [payloadValue, goodJs, goodFields, goodArr_embedEntries]

theorem extractEntry_embedEntry (f : SecretFile) (hb : ∀ b ∈ f.content, b < 256) :
    extractEntry (embedEntry f) = .ok (fileAsHidden f) := by
  have h1 : jsGetField (embedEntry f) ("name".toList) = .ok (some (.str f.name)) := rfl
  have h2 : jsGetField (embedEntry f) ("size".toList)
      = .ok (some (.num ⟨(f.content.length : Int), 0⟩)) := rfl
  have h3 : jsGetField (embedEntry f) ("type".toList) = .ok (some (.str f.type)) := rfl
  have h4 : jsGetField (embedEntry f) ("dataBase64".toList)
      = .ok (some (.str (arrayBufferToBase64 f.content))) := rfl
  unfold extractEntry
  rw [h1, h2, h3, h4]
  dsimp only
  rw [show jsToStringOpt (some (.str (arrayBufferToBase64 f.content)))
      = arrayBufferToBase64 f.content from rfl]
  rw [base64_roundtrip f.content hb]
  rfl

theorem mapEntries_embedEntries (fs : List SecretFile)
    (hb : ∀ f ∈ fs, ∀ b ∈ f.content, b < 256) :
    mapEntries (fs.map embedEntry) = .ok (fs.map fileAsHidden) := by
  induction fs with
  | nil => rfl
  | cons f rest ih =>
    simp only [List.map_cons, mapEntries]
    rw [extractEntry_embedEntry f (hb f (by simp))]
    rw [ih (fun g hg bb hbb => hb g (by simp [hg]) bb hbb)]

theorem extractPayload_payloadValue (fs : List SecretFile) (pwd : Str)
    (hb : ∀ f ∈ fs, ∀ b ∈ f.content, b < 256) :
    extractPayload (payloadValue fs pwd) = .ok (fs.map fileAsHidden) := by
  have h1 : jsGetField (payloadValue fs pwd) ("files".toList)
      = .ok (some (.arr (fs.map embedEntry))) := rfl
  unfold extractPayload
  rw [h1]
  dsimp only
  rw [show truthyOpt (some (.arr (fs.map embedEntry))) = true from rfl]
  simp only [Bool.not_true, Bool.false_eq_true, if_false]
  exact mapEntries_embedEntries fs hb

/-- Unpack of a Pack container keyed alike: the framing reads back, the mask
cancels, the JSON document round-trips, and the original files come out. -/
theorem extractFiles_embedFiles (cover : List Nat) (fs : List SecretFile) (pwd : Str)
    (hb : ∀ f ∈ fs, ∀ b ∈ f.content, b < 256)
    (hlen : (utf8Encode (jsStringify (payloadValue fs pwd))).length < 2 ^ 31) :
    extractFiles (embedFiles cover fs pwd) pwd = .ok (fs.map fileAsHidden) := by
  unfold embedFiles
  rw [extractFiles_packed cover _ pwd
    (by rw [xorEncrypt_length]; exact one_le_payloadBytes _)
    (by rw [xorEncrypt_length]; exact hlen)]
  rw [xorEncrypt_xorEncrypt, utf8Dec_utf8Encode,
    jsonParse_stringify _ (goodJs_payloadValue fs pwd)]
  exact extractPayload_payloadValue fs pwd hb

theorem wfHidden_shape (f : HiddenFile) (hwf : wfHidden f = true) :
    ∃ nm ty n, f.name = some (.str nm) ∧ f.type = some (.str ty) ∧ f.size = some (.num n) ∧
      n.exp = 0 ∧ 0 ≤ n.mant ∧ ∀ b ∈ f.data, b < 256 := by
  obtain ⟨nm, sz, ty, data⟩ := f
  simp only [wfHidden, Bool.and_eq_true] at hwf
  obtain ⟨⟨⟨hn, ht⟩, hs⟩, hd⟩ := hwf
  obtain ⟨ns, rfl⟩ : ∃ s, nm = some (.str s) := by
    cases nm with
    | none => simp at hn
    | some v => cases v <;> simp at hn <;> exact ⟨_, rfl⟩
  obtain ⟨ts, rfl⟩ : ∃ s, ty = some (.str s) := by
    cases ty with
    | none => simp at ht
    | some v => cases v <;> simp at ht <;> exact ⟨_, rfl⟩
  obtain ⟨n, rfl, he, hm⟩ : ∃ n, sz = some (.num n) ∧ n.exp = 0 ∧ 0 ≤ n.mant := by
    cases sz with
    | none => simp at hs
    | some v =>
      cases v <;> simp at hs
      exact ⟨_, rfl, hs.1, hs.2⟩
  refine ⟨ns, ts, n, rfl, rfl, rfl, he, hm, ?_⟩
  simpa using hd

theorem goodJs_reEntry (f : HiddenFile) (hwf : wfHidden f = true) :
    goodJs (reEntry f) = true := by
  obtain ⟨nm, ty, n, h1, h2, h3, he, hm, _⟩ := wfHidden_shape f hwf
  obtain ⟨fn, fs2, ft, fd⟩ := f
  simp only at h1 h2 h3
  subst h1 h2 h3
  simp [reEntry, optField, goodJs, goodFields, he, hm]

theorem extractEntry_reEntry (f : HiddenFile) (hwf : wfHidden f = true) :
    extractEntry (reEntry f) = .ok f := by
  obtain ⟨nm, ty, n, h1, h2, h3, _, _, hd⟩ := wfHidden_shape f hwf
  obtain ⟨fn, fs2, ft, fd⟩ := f
  simp only at h1 h2 h3
  subst h1 h2 h3
  have g1 : jsGetField (reEntry ⟨some (.str nm), some (.num n), some (.str ty), fd⟩)
      ("name".toList) = .ok (some (.str nm)) := rfl
  have g2 : jsGetField (reEntry ⟨some (.str nm), some (.num n), some (.str ty), fd⟩)
      ("size".toList) = .ok (some (.num n)) := rfl
  have g3 : jsGetField (reEntry ⟨some (.str nm), some (.num n), some (.str ty), fd⟩)
      ("type".toList) = .ok (some (.str ty)) := rfl
  have g4 : jsGetField (reEntry ⟨some (.str nm), some (.num n), some (.str ty), fd⟩)
      ("dataBase64".toList) = .ok (some (.str (arrayBufferToBase64 fd))) := rfl
  unfold extractEntry
  rw [g1, g2, g3, g4]
  dsimp only
  rw [show jsToStringOpt (some (.str (arrayBufferToBase64 fd)))
      = arrayBufferToBase64 fd from rfl]
  rw [base64_roundtrip fd (by simpa using hd)]

theorem goodArr_reEntries (files : List HiddenFile) (hwf : ∀ f ∈ files, wfHidden f = true) :
    goodArr (files.map reEntry) = true := by
  induction files with
  | nil => rfl
  | cons f rest ih =>
    simp only [List.map_cons, goodArr, Bool.and_eq_true]
    exact ⟨goodJs_reEntry f (hwf f (by simp)), ih (fun g hg => hwf g (by simp [hg]))⟩

theorem goodJs_repackValue (files : List HiddenFile) (pwd : Str)
    (hwf : ∀ f ∈ files, wfHidden f = true) :
    goodJs (repackValue files pwd) = true := by
  simp [repackValue, goodJs, goodFields, goodArr_reEntries files hwf]

theorem mapEntries_reEntries (files : List HiddenFile)
    (hwf : ∀ f ∈ files, wfHidden f = true) :
    mapEntries (files.map reEntry) = .ok files := by
  induction files with
  | nil => rfl
  | cons f rest ih =>
    simp only [List.map_cons, mapEntries]
    rw [extractEntry_reEntry f (hwf f (by simp))]
    rw [ih (fun g hg => hwf g (by simp [hg]))]

theorem extractPayload_repackValue (files : List HiddenFile) (pwd : Str)
    (hwf : ∀ f ∈ files, wfHidden f = true) :
    extractPayload (repackValue files pwd) = .ok files := by
  have h1 : jsGetField (repackValue files pwd) ("files".toList)
      = .ok (some (.arr (files.map reEntry))) := rfl
  unfold extractPayload
  rw [h1]
  dsimp only
  rw [show truthyOpt (some (.arr (files.map reEntry))) = true from rfl]
  simp only [Bool.not_true, Bool.false_eq_true, if_false]
  exact mapEntries_reEntries files hwf

/-- `reEmbedFiles` in packed shape: the clamped cover slice followed by the
fresh payload and trailer. -/
theorem reEmbedFiles_shape (stego : List Nat) (files : List HiddenFile) (pwd : Str) :
    reEmbedFiles stego files pwd
      = sliceBytes stego 0 ((stego.length : Int) - 8 - readPayloadSize stego)
        ++ repackPayloadBytes files pwd
        ++ sizeFieldBytes (repackPayloadBytes files pwd).length ++ MAGIC_BYTES := rfl

/-- Unpack of a Repack output keyed alike returns the repacked files,
whatever the input buffer was. -/
theorem extractFiles_reEmbedFiles (stego : List Nat) (files : List HiddenFile) (pwd : Str)
    (hwf : ∀ f ∈ files, wfHidden f = true)
    (hlen : (utf8Encode (jsStringify (repackValue files pwd))).length < 2 ^ 31) :
    extractFiles (reEmbedFiles stego files pwd) pwd = .ok files := by
  rw [reEmbedFiles_shape]
  rw [extractFiles_packed _ _ pwd
    (by rw [repackPayloadBytes, xorEncrypt_length]; exact one_le_payloadBytes _)
    (by rw [repackPayloadBytes, xorEncrypt_length]; exact hlen)]
  rw [repackPayloadBytes, xorEncrypt_xorEncrypt, utf8Dec_utf8Encode,
    jsonParse_stringify _ (goodJs_repackValue files pwd hwf)]
  exact extractPayload_repackValue files pwd hwf

/-! ## Further helpers used by the claim theorems -/

/-- The spec's reading of the trailer's length field: the four bytes before
the magic tag as a **big-endian unsigned** integer. (The code's read,
`readPayloadSize`, is `toInt32` of the same sum; the two are compared
below.) -/
def specUnsignedLen (u : List Nat) : Nat :=
  byteAt u ((u.length : Int) - 8) * 16777216 +
  byteAt u ((u.length : Int) - 7) * 65536 +
  byteAt u ((u.length : Int) - 6) * 256 +
  byteAt u ((u.length : Int) - 5)

theorem readPayloadSize_eq_toInt32 (u : List Nat) :
    readPayloadSize u = toInt32 (specUnsignedLen u) := rfl

theorem byteAt_lt_256 (u : List Nat) (hb : ∀ b ∈ u, b < 256) (i : Int) : byteAt u i < 256 := by
  unfold byteAt
  split
  · unfold List.getD
    cases h : u.get? i.toNat with
    | none => simp
    | some x => simpa using hb x (List.get?_mem h)
  · omega

theorem checkPayload_found (pbytes : List Nat) : (checkPayload pbytes).found = true := by
  unfold checkPayload
  split
  · split <;> rfl
  · rfl

theorem extractEntry_ne_decodeUtf8 (f : JsValue) :
    extractEntry f ≠ .error .decodeUtf8 := by
  unfold extractEntry
  split
  · simp
  · split
    · simp
    · split
      · simp
      · split
        · simp
        · split <;> simp

theorem mapEntries_ne_decodeUtf8 (elems : List JsValue) :
    mapEntries elems ≠ Except.error ExtractErr.decodeUtf8 := by
  induction elems with
  | nil => simp [mapEntries]
  | cons x xs ih =>
    unfold mapEntries
    cases hx : extractEntry x with
    | error e =>
      have he : e ≠ .decodeUtf8 := fun he => extractEntry_ne_decodeUtf8 x (he ▸ hx)
      simpa using he
    | ok v =>
      cases hxs : mapEntries xs with
      | error e =>
        have he : e ≠ .decodeUtf8 := fun he => ih (he ▸ hxs)
        simpa using he
      | ok vs => simp

theorem extractPayload_ne_decodeUtf8 (obj : JsValue) :
    extractPayload obj ≠ .error .decodeUtf8 := by
  unfold extractPayload
  split
  · simp
  · split
    · simp
    · split
      · exact mapEntries_ne_decodeUtf8 _
      · simp

theorem sliceBytes_front (c rest : List Nat) :
    sliceBytes (c ++ rest) 0 ((c.length : Nat) : Int) = c := by
  rw [sliceBytes_of_bounds _ _ _ (le_refl 0) (by omega) (by omega)
    (by simp only [List.length_append]; push_cast; omega)]
  simp [List.take_left]

/-! ## Concrete instances used by witnesses and counterexamples -/

/-- A one-byte secret file exercising both base64 boundary values. -/
def demoFile : SecretFile := ⟨['a'], ['t'], [0, 255]⟩

/-- The payload document of an empty embed under any non-empty password. -/
def c3json : Str := jsStringify (payloadValue [] ['x'])

/-- A JSON document of the same length that parses to the number `1`. -/
def c3target : Str := '1' :: List.replicate (c3json.length - 1) ' '

/-- The password whose UTF-8 keystream maps `c3json` onto `c3target`: every
byte is the XOR of the corresponding document bytes (all < 0x80, so the
password's UTF-8 encoding is those bytes verbatim and the password has
exactly the payload's length). -/
def c3pwd : Str := List.zipWith (fun a b => Char.ofNat (a.toNat ^^^ b.toNat)) c3json c3target

/-- A payload document whose single entry carries a `dataBase64` value that
`atob` rejects (`"!"` is outside the base64 alphabet). -/
def c10doc : JsValue :=
  .obj [("files".toList, .arr [.obj [("dataBase64".toList, .str ['!'])]]),
        ("hasPassword".toList, .bool false)]

/-- A syntactically valid container around `c10doc` (empty cover). -/
def c10buf : List Nat :=
  utf8Encode (jsStringify c10doc)
    ++ sizeFieldBytes (utf8Encode (jsStringify c10doc)).length ++ MAGIC_BYTES

theorem xorMask_getD (key : List Nat) :
    ∀ (j : Nat) (data : List Nat) (i : Nat), i < data.length →
    (xorMask key j data).getD i 0 = data.getD i 0 ^^^ key.getD ((j + i) % key.length) 0 := by
  intro j data
  induction data generalizing j with
  | nil => intro i hi; simp at hi
  | cons b rest ih =>
    intro i hi
    cases i with
    | zero => simp [xorMask]
    | succ i2 =>
      simp only [xorMask, List.getD_cons_succ]
      rw [ih (j + 1) i2 (by simpa using hi)]
      rw [show j + 1 + i2 = j + (i2 + 1) from by omega]

/-! ## The claims -/

/-- C1: round-trip without password — Unpack of a no-password Pack returns
the input files (same names, MIME types, declared sizes and bytes, in
order), given byte-valued contents and a payload that fits the 31-bit size
field. -/
theorem C1_roundtrip_no_password (cover : List Nat) (fs : List SecretFile)
    (hne : fs ≠ [])
    (hb : ∀ f ∈ fs, ∀ b ∈ f.content, b < 256)
    (hlen : (utf8Encode (jsStringify (payloadValue fs []))).length < 2 ^ 31) :
    extractFiles (embedFiles cover fs []) [] = .ok (fs.map fileAsHidden) :=
  extractFiles_embedFiles cover fs [] hb hlen

theorem C1_roundtrip_no_password_witness :
    ([demoFile] : List SecretFile) ≠ [] ∧
    (utf8Encode (jsStringify (payloadValue [demoFile] []))).length < 2 ^ 31 ∧
    extractFiles (embedFiles [9, 9] [demoFile] []) [] = .ok [fileAsHidden demoFile] :=
  ⟨by decide, by decide,
    C1_roundtrip_no_password [9, 9] [demoFile] (by decide) (by decide) (by decide)⟩

/-- C2 (amended): round-trip with the same non-empty password holds; the
claim's second half — a *different* password never yields the original
files — is false (see the counterexample), because distinct passwords can
generate identical repeating keystreams. -/
theorem C2_same_password_roundtrip (cover : List Nat) (fs : List SecretFile) (p : Str)
    (hp : p ≠ []) (hb : ∀ f ∈ fs, ∀ b ∈ f.content, b < 256)
    (hlen : (utf8Encode (jsStringify (payloadValue fs p))).length < 2 ^ 31) :
    extractFiles (embedFiles cover fs p) p = .ok (fs.map fileAsHidden) :=
  extractFiles_embedFiles cover fs p hb hlen

theorem C2_same_password_roundtrip_witness :
    ("ab".toList : Str) ≠ [] ∧
    (utf8Encode (jsStringify (payloadValue [demoFile] "ab".toList))).length < 2 ^ 31 ∧
    extractFiles (embedFiles [9, 9] [demoFile] "ab".toList) "ab".toList
      = .ok [fileAsHidden demoFile] :=
  ⟨by decide, by decide,
    C2_same_password_roundtrip [9, 9] [demoFile] "ab".toList (by decide) (by decide) (by decide)⟩

/-- C2 counterexample: packing under `"ab"` and unpacking under the
*different* password `"abab"` returns the original files bit for bit — the
two passwords induce the same repeating XOR keystream. -/
theorem C2_wrong_password_returns_originals :
    ("ab".toList : Str) ≠ "abab".toList ∧
    extractFiles (embedFiles [9, 9] [demoFile] "ab".toList) "abab".toList
      = .ok [fileAsHidden demoFile] :=
  ⟨by decide, by decide⟩

/-- C3 (amended): Detect always reports `found = true` on a Pack output, and
reports `hasPassword = false` for a no-password Pack; but `hasPassword` for a
password Pack is whatever the *masked* bytes happen to parse to, not
necessarily `true` (see the counterexample). -/
theorem C3_detect_found_hasPassword (cover : List Nat) (fs : List SecretFile) (pwd : Str)
    (hlen : (utf8Encode (jsStringify (payloadValue fs pwd))).length < 2 ^ 31)
    (hlen0 : (utf8Encode (jsStringify (payloadValue fs []))).length < 2 ^ 31) :
    (checkForHiddenData (embedFiles cover fs pwd)).found = true ∧
    checkForHiddenData (embedFiles cover fs []) = ⟨true, false⟩ := by
  constructor
  · unfold embedFiles
    rw [checkForHiddenData_packed cover _
      (by rw [xorEncrypt_length]; exact one_le_payloadBytes _)
      (by rw [xorEncrypt_length]; exact hlen)]
    exact checkPayload_found _
  · unfold embedFiles
    rw [checkForHiddenData_packed cover _
      (by rw [xorEncrypt_length]; exact one_le_payloadBytes _)
      (by rw [xorEncrypt_length]; exact hlen0)]
    unfold checkPayload
    rw [xorEncrypt_nil, utf8Dec_utf8Encode, jsonParse_stringify _ (goodJs_payloadValue fs [])]
    dsimp only
    rw [show jsGetField (payloadValue fs []) ("hasPassword".toList)
        = .ok (some (.bool false)) from rfl]
    rfl

theorem C3_detect_found_hasPassword_witness :
    (utf8Encode (jsStringify (payloadValue [] "x".toList))).length < 2 ^ 31 ∧
    (utf8Encode (jsStringify (payloadValue ([] : List SecretFile) []))).length < 2 ^ 31 ∧
    ((checkForHiddenData (embedFiles [] [] "x".toList)).found = true ∧
     checkForHiddenData (embedFiles ([] : List Nat) [] []) = ⟨true, false⟩) :=
  ⟨by decide, by decide,
    C3_detect_found_hasPassword [] [] "x".toList (by decide) (by decide)⟩

/-- C3 counterexample: a non-empty password whose keystream turns the
payload into the JSON document `1` followed by spaces. Detect parses the
*masked* bytes, finds no `hasPassword` property on the number, and reports
`hasPassword = false` even though the container was packed with a
password. -/
theorem C3_nonempty_password_detected_unmasked :
    c3pwd ≠ [] ∧ checkForHiddenData (embedFiles [] [] c3pwd) = ⟨true, false⟩ :=
  ⟨by decide, by decide⟩

/-- C4: Repack of a packed container preserves the cover prefix byte for
byte (the boundary is re-derived from the original trailer), and Unpack of
the result returns exactly the repacked files. -/
theorem C4_repack_preserves_cover (cover : List Nat) (fsA : List SecretFile)
    (filesB : List HiddenFile)
    (hwfB : ∀ f ∈ filesB, wfHidden f = true)
    (hlenA : (utf8Encode (jsStringify (payloadValue fsA []))).length < 2 ^ 31)
    (hlenB : (utf8Encode (jsStringify (repackValue filesB []))).length < 2 ^ 31) :
    (reEmbedFiles (embedFiles cover fsA []) filesB []).take cover.length = cover ∧
    extractFiles (reEmbedFiles (embedFiles cover fsA []) filesB []) [] = .ok filesB := by
  refine ⟨?_, extractFiles_reEmbedFiles _ filesB [] hwfB hlenB⟩
  rw [reEmbedFiles_shape]
  have hembed : embedFiles cover fsA []
      = cover ++ utf8Encode (jsStringify (payloadValue fsA []))
        ++ sizeFieldBytes (utf8Encode (jsStringify (payloadValue fsA []))).length
        ++ MAGIC_BYTES := rfl
  rw [hembed]
  rw [readPayloadSize_packed cover _ hlenA]
  rw [show ((cover ++ utf8Encode (jsStringify (payloadValue fsA []))
      ++ sizeFieldBytes (utf8Encode (jsStringify (payloadValue fsA []))).length
      ++ MAGIC_BYTES).length : Int) - 8
        - ((utf8Encode (jsStringify (payloadValue fsA []))).length : Int)
      = ((cover.length : Nat) : Int) from by
    rw [packed_length]; push_cast; omega]
  rw [show cover ++ utf8Encode (jsStringify (payloadValue fsA []))
      ++ sizeFieldBytes (utf8Encode (jsStringify (payloadValue fsA []))).length ++ MAGIC_BYTES
      = cover ++ (utf8Encode (jsStringify (payloadValue fsA []))
        ++ (sizeFieldBytes (utf8Encode (jsStringify (payloadValue fsA []))).length
          ++ MAGIC_BYTES)) from by simp]
  rw [sliceBytes_front]
  rw [show cover ++ repackPayloadBytes filesB []
      ++ sizeFieldBytes (repackPayloadBytes filesB []).length ++ MAGIC_BYTES
      = cover ++ (repackPayloadBytes filesB []
        ++ (sizeFieldBytes (repackPayloadBytes filesB []).length ++ MAGIC_BYTES)) from by simp]
  exact List.take_left cover _

theorem C4_repack_preserves_cover_witness :
    (∀ f ∈ [fileAsHidden demoFile], wfHidden f = true) ∧
    ((reEmbedFiles (embedFiles [5] [demoFile] []) [fileAsHidden demoFile] []).take 1 = [5] ∧
     extractFiles (reEmbedFiles (embedFiles [5] [demoFile] []) [fileAsHidden demoFile] []) []
       = .ok [fileAsHidden demoFile]) :=
  ⟨by decide,
    C4_repack_preserves_cover [5] [demoFile] [fileAsHidden demoFile]
      (by decide) (by decide) (by decide)⟩

/-- C5: non-container rejection — on a buffer that is too short, lacks the
magic tag, or whose declared (big-endian unsigned) payload length violates
`0 < length ≤ bufferLength - 8`, Detect reports `found = false` and Unpack
fails with one of the three framing errors, before any payload decode. -/
theorem C5_noncontainer_rejection (u : List Nat) (pwd : Str)
    (hb : ∀ b ∈ u, b < 256)
    (h : u.length < 8 ∨ magicOk u = false ∨ specUnsignedLen u = 0 ∨
      u.length - 8 < specUnsignedLen u) :
    (checkForHiddenData u).found = false ∧
    (extractFiles u pwd = .error .tooSmall ∨ extractFiles u pwd = .error .noMagic ∨
      extractFiles u pwd = .error .badSize) := by
  by_cases h8 : u.length < 8
  · constructor
    · unfold checkForHiddenData
      rw [if_pos h8]
    · left
      unfold extractFiles
      rw [if_pos h8]
  · by_cases hmg : magicOk u = true
    · have hs : specUnsignedLen u = 0 ∨ u.length - 8 < specUnsignedLen u := by
        rcases h with h | h | h | h
        · omega
        · rw [h] at hmg; exact absurd hmg (by simp)
        · exact Or.inl h
        · exact Or.inr h
      have hbound : specUnsignedLen u < 4294967296 := by
        have b1 := byteAt_lt_256 u hb ((u.length : Int) - 8)
        have b2 := byteAt_lt_256 u hb ((u.length : Int) - 7)
        have b3 := byteAt_lt_256 u hb ((u.length : Int) - 6)
        have b4 := byteAt_lt_256 u hb ((u.length : Int) - 5)
        unfold specUnsignedLen
        omega
      have hsigned : readPayloadSize u ≤ 0 ∨ (u.length : Int) - 8 < readPayloadSize u := by
        rw [readPayloadSize_eq_toInt32]
        rcases hs with hs | hs
        · left; rw [hs]; decide
        · unfold toInt32
          rw [Nat.mod_eq_of_lt hbound]
          by_cases hlt : specUnsignedLen u < 2147483648
          · right
            rw [if_pos hlt]
            omega
          · left
            rw [if_neg hlt]
            omega
      constructor
      · unfold checkForHiddenData
        rw [if_neg h8, hmg]
        simp only [Bool.not_true, Bool.false_eq_true, if_false]
        rw [if_pos hsigned]
      · right; right
        unfold extractFiles
        rw [if_neg h8, hmg]
        simp only [Bool.not_true, Bool.false_eq_true, if_false]
        rw [if_pos hsigned]
    · have hmg2 : magicOk u = false := by
        cases hval : magicOk u
        · rfl
        · exact absurd hval hmg
      constructor
      · unfold checkForHiddenData
        rw [if_neg h8, hmg2]
        simp
      · right; left
        unfold extractFiles
        rw [if_neg h8, hmg2]
        simp

theorem C5_noncontainer_rejection_witness :
    (∀ b ∈ ([0, 0, 0, 0, 0, 0, 0, 0] : List Nat), b < 256) ∧
    magicOk [0, 0, 0, 0, 0, 0, 0, 0] = false ∧
    ((checkForHiddenData [0, 0, 0, 0, 0, 0, 0, 0]).found = false ∧
     (extractFiles [0, 0, 0, 0, 0, 0, 0, 0] [] = .error .tooSmall ∨
      extractFiles [0, 0, 0, 0, 0, 0, 0, 0] [] = .error .noMagic ∨
      extractFiles [0, 0, 0, 0, 0, 0, 0, 0] [] = .error .badSize)) :=
  ⟨by decide, by decide,
    C5_noncontainer_rejection [0, 0, 0, 0, 0, 0, 0, 0] [] (by decide)
      (Or.inr (Or.inl (by decide)))⟩

/-- C6: the XOR mask is an involution for any password and any data; an
empty password is a no-op (never a zero-length-key access); and when a
password is present, output byte `i` is input byte `i` XORed with key byte
`i mod keyLength`. -/
theorem C6_xor_involution (password : Str) (data : List Nat) (i : Nat)
    (hp : password ≠ []) (hi : i < data.length) :
    xorEncrypt (xorEncrypt data password) password = data ∧
    xorEncrypt data [] = data ∧
    (xorEncrypt data password).getD i 0
      = data.getD i 0 ^^^ (utf8Encode password).getD (i % (utf8Encode password).length) 0 := by
  refine ⟨xorEncrypt_xorEncrypt data password, xorEncrypt_nil data, ?_⟩
  unfold xorEncrypt
  rw [if_neg (by simpa [List.isEmpty_iff] using hp)]
  rw [xorMask_getD (utf8Encode password) 0 data i hi]
  norm_num

theorem C6_xor_involution_witness :
    ("ab".toList : Str) ≠ [] ∧ (2 : Nat) < ([1, 2, 3] : List Nat).length ∧
    (xorEncrypt (xorEncrypt [1, 2, 3] "ab".toList) "ab".toList = [1, 2, 3] ∧
     xorEncrypt [1, 2, 3] [] = [1, 2, 3] ∧
     (xorEncrypt [1, 2, 3] "ab".toList).getD 2 0
       = [1, 2, 3].getD 2 0
         ^^^ (utf8Encode "ab".toList).getD (2 % (utf8Encode "ab".toList).length) 0) :=
  ⟨by decide, by decide, C6_xor_involution "ab".toList [1, 2, 3] 2 (by decide) (by decide)⟩

/-- C7 (amended): the length field is read through `ToInt32`, i.e. as a
big-endian **signed** 32-bit value: it equals the unsigned big-endian value
only below `2^31`, and is that value minus `2^32` (negative) once the first
byte reaches `0x80` — not the unsigned value the spec's table states. -/
theorem C7_signed_length_read (u : List Nat) (hl : 8 ≤ u.length) (hb : ∀ b ∈ u, b < 256) :
    readPayloadSize u = if specUnsignedLen u < 2 ^ 31 then (specUnsignedLen u : Int)
      else (specUnsignedLen u : Int) - 2 ^ 32 := by
  have hbound : specUnsignedLen u < 4294967296 := by
    have b1 := byteAt_lt_256 u hb ((u.length : Int) - 8)
    have b2 := byteAt_lt_256 u hb ((u.length : Int) - 7)
    have b3 := byteAt_lt_256 u hb ((u.length : Int) - 6)
    have b4 := byteAt_lt_256 u hb ((u.length : Int) - 5)
    unfold specUnsignedLen
    omega
  rw [readPayloadSize_eq_toInt32]
  unfold toInt32
  rw [Nat.mod_eq_of_lt hbound]
  norm_num

theorem C7_signed_length_read_witness :
    8 ≤ ([0, 0, 0, 1, 0x53, 0x54, 0x45, 0x47] : List Nat).length ∧
    (∀ b ∈ ([0, 0, 0, 1, 0x53, 0x54, 0x45, 0x47] : List Nat), b < 256) ∧
    readPayloadSize [0, 0, 0, 1, 0x53, 0x54, 0x45, 0x47]
      = if specUnsignedLen [0, 0, 0, 1, 0x53, 0x54, 0x45, 0x47] < 2 ^ 31
        then (specUnsignedLen [0, 0, 0, 1, 0x53, 0x54, 0x45, 0x47] : Int)
        else (specUnsignedLen [0, 0, 0, 1, 0x53, 0x54, 0x45, 0x47] : Int) - 2 ^ 32 :=
  ⟨by decide, by decide,
    C7_signed_length_read [0, 0, 0, 1, 0x53, 0x54, 0x45, 0x47] (by decide) (by decide)⟩

/-- C7 counterexample: with length bytes `80 00 00 00` the code reads
`-2^31`, not the unsigned value `0x80 * 2^24 = 2^31` the spec states. -/
theorem C7_unsigned_counterexample :
    readPayloadSize [0x80, 0, 0, 0, 0x53, 0x54, 0x45, 0x47]
      ≠ 0x80 * 16777216 + 0 * 65536 + 0 * 256 + 0 := by
  decide

/-- C8: the declared `size` is unverified metadata — a container whose entry
declares a size different from its content's byte length still extracts
without error, and the declared value is returned verbatim. -/
theorem C8_size_unverified (cover : List Nat) (nm ty : Str) (n : JsNum) (content : List Nat)
    (hb : ∀ b ∈ content, b < 256) (he : n.exp = 0) (hm : 0 ≤ n.mant)
    (hmis : n.mant ≠ (content.length : Int))
    (hlen : (utf8Encode (jsStringify (repackValue
      [⟨some (.str nm), some (.num n), some (.str ty), content⟩] []))).length < 2 ^ 31) :
    extractFiles
      (cover ++ utf8Encode (jsStringify (repackValue
          [⟨some (.str nm), some (.num n), some (.str ty), content⟩] []))
        ++ sizeFieldBytes (utf8Encode (jsStringify (repackValue
          [⟨some (.str nm), some (.num n), some (.str ty), content⟩] []))).length
        ++ MAGIC_BYTES) []
      = .ok [⟨some (.str nm), some (.num n), some (.str ty), content⟩] := by
  have hwf : ∀ g ∈ [(⟨some (.str nm), some (.num n), some (.str ty), content⟩ : HiddenFile)],
      wfHidden g = true := by
    intro g hg
    rw [List.mem_singleton] at hg
    subst hg
    simpa [wfHidden, he, hm, List.all_eq_true] using hb
  rw [extractFiles_packed cover _ [] (one_le_payloadBytes _) hlen]
  rw [xorEncrypt_nil, utf8Dec_utf8Encode,
    jsonParse_stringify _ (goodJs_repackValue _ [] hwf)]
  exact extractPayload_repackValue _ [] hwf

theorem C8_size_unverified_witness :
    ((999 : Int) ≠ (([0] : List Nat).length : Int)) ∧
    extractFiles
      ([] ++ utf8Encode (jsStringify (repackValue
          [⟨some (.str ['a']), some (.num ⟨999, 0⟩), some (.str ['t']), [0]⟩] []))
        ++ sizeFieldBytes (utf8Encode (jsStringify (repackValue
          [⟨some (.str ['a']), some (.num ⟨999, 0⟩), some (.str ['t']), [0]⟩] []))).length
        ++ MAGIC_BYTES) []
      = .ok [⟨some (.str ['a']), some (.num ⟨999, 0⟩), some (.str ['t']), [0]⟩] :=
  ⟨by decide,
    C8_size_unverified [] ['a'] ['t'] ⟨999, 0⟩ [0] (by decide) rfl (by decide) (by decide)
      (by decide)⟩

/-- C9: Repack performs no framing validation — for *every* input buffer,
container or not, it silently succeeds: the output is the clamped
`slice(0, length - 8 - sizeRead)` cover prefix (derived from the unvalidated
trailer read) followed by a fresh payload and trailer, and unpacking the
output returns the repacked files. -/
theorem C9_repack_no_validation (u : List Nat) (files : List HiddenFile) (pwd : Str)
    (hwf : ∀ f ∈ files, wfHidden f = true)
    (hlen : (utf8Encode (jsStringify (repackValue files pwd))).length < 2 ^ 31) :
    reEmbedFiles u files pwd
      = sliceBytes u 0 ((u.length : Int) - 8 - readPayloadSize u)
        ++ repackPayloadBytes files pwd
        ++ sizeFieldBytes (repackPayloadBytes files pwd).length ++ MAGIC_BYTES ∧
    extractFiles (reEmbedFiles u files pwd) pwd = .ok files :=
  ⟨reEmbedFiles_shape u files pwd, extractFiles_reEmbedFiles u files pwd hwf hlen⟩

theorem C9_repack_no_validation_witness :
    extractFiles [1, 2, 3] [] = .error .tooSmall ∧
    (reEmbedFiles [1, 2, 3] [] []
      = sliceBytes [1, 2, 3] 0 ((([1, 2, 3] : List Nat).length : Int) - 8
          - readPayloadSize [1, 2, 3])
        ++ repackPayloadBytes [] []
        ++ sizeFieldBytes (repackPayloadBytes [] []).length ++ MAGIC_BYTES ∧
     extractFiles (reEmbedFiles [1, 2, 3] [] []) [] = .ok []) :=
  ⟨by decide, C9_repack_no_validation [1, 2, 3] [] [] (by simp) (by decide)⟩

/-- C10 (amended): the UTF-8-decode catch in Unpack is indeed dead (the
non-fatal `TextDecoder` never throws) and Detect's parse attempt is fully
enclosed (its result always has `found = true` once framing passed); but a
wrong password or corrupt payload is **not** only detected at the parse or
`files`-shape steps — the entry mapping can still raise uncaught `atob` /
property-access errors (see the counterexample). -/
theorem C10_no_decode_error (u pb : List Nat) (pwd : Str) (e : ExtractErr)
    (h : extractFiles u pwd = .error e) :
    e ≠ .decodeUtf8 ∧ (checkPayload pb).found = true := by
  refine ⟨?_, checkPayload_found pb⟩
  intro he
  subst he
  revert h
  unfold extractFiles
  dsimp only
  split
  · simp
  · split
    · simp
    · split
      · simp
      · split
        · simp
        · exact fun hh => extractPayload_ne_decodeUtf8 _ hh

theorem C10_no_decode_error_witness :
    extractFiles [] [] = .error .tooSmall ∧
    (ExtractErr.tooSmall ≠ .decodeUtf8 ∧ (checkPayload []).found = true) :=
  ⟨by decide, C10_no_decode_error [] [] [] .tooSmall (by decide)⟩

/-- C10 counterexample: a container whose payload parses and passes the
`files` check, yet whose entry's `dataBase64` value `"!"` makes `atob`
throw during the mapping step — an uncaught error past both steps the claim
names as the only detection points. -/
theorem C10_atob_uncaught_counterexample :
    extractFiles c10buf [] = .error .atobInvalid := by
  decide

end Stegafy
